import Mathlib

/-!
Verification development for the NXT_BKP business-registration wizard.

The repository consists of:
* `src/utils/firebase.ts` — a data-access layer over a document store
  (Firestore) plus object storage: `cleanFirestoreData`, `saveBusinessDraft`,
  `completeBusinessRegistration`, `getBusinessDraft`, `updateBusiness`,
  `deleteDocument`, `getStoragePathFromUrl`;
* a multi-step registration wizard page (`handleNext`, `handleBack`,
  `handleEdit`, the Review step's `onNext`, and sessionStorage persistence);
* a checkout endpoint (`POST`) proxying to a hosted payment provider.

JavaScript runtime values are embedded as the mutual inductive family
`JsValue` / `JsArr` / `JsObj` below: `undef` is the absent-value sentinel
(JS `undefined`), objects are ordered key/value sequences (JS insertion
order), and `file` stands for an in-memory `File` handle (an object with no
enumerable own properties, which is how `JSON.stringify` sees it).
Numbers are embedded as rationals.
-/

mutual

inductive JsValue : Type where
  | undef : JsValue
  | null : JsValue
  | bool (b : Bool) : JsValue
  | num (q : ℚ) : JsValue
  | str (s : String) : JsValue
  | file (name : String) : JsValue
  | arr (elems : JsArr) : JsValue
  | obj (fields : JsObj) : JsValue

inductive JsArr : Type where
  | nil : JsArr
  | cons (v : JsValue) (rest : JsArr) : JsArr

inductive JsObj : Type where
  | nil : JsObj
  | cons (key : String) (v : JsValue) (rest : JsObj) : JsObj

end

/-- Association lookup on a JS object, first occurrence wins
(JS objects have unique keys; our writers preserve that). -/
def getField : JsObj → String → Option JsValue
  | .nil, _ => none
  | .cons k v rest, key => if k = key then some v else getField rest key

/-- JS property write `o[k] = v` / object-literal override: replaces the
value at an existing key in place, otherwise appends the key at the end
(JS insertion-order semantics). -/
def setField : JsObj → String → JsValue → JsObj
  | .nil, key, v => .cons key v .nil
  | .cons k w rest, key, v =>
    if k = key then .cons k v rest else .cons k w (setField rest key v)

/-- Fold `setField` over the update's fields: the semantics of both a JS
spread-with-overrides and Firestore's `updateDoc` top-level field merge. -/
def mergeObj : JsObj → JsObj → JsObj
  | d, .nil => d
  | d, .cons k v rest => mergeObj (setField d k v) rest

/-- Whether a key is present on the object. -/
def hasKey : JsObj → String → Bool
  | .nil, _ => false
  | .cons k _ rest, key => if k = key then true else hasKey rest key

/-- JS property read `v.k`: field lookup on an object, `undefined` for a
missing field or a non-object base. -/
def jsGet (v : JsValue) (key : String) : JsValue :=
  match v with
  | .obj fs => (getField fs key).getD .undef
  | _ => .undef

mutual

/-- `cleanFirestoreData` (src/utils/firebase.ts:88-101): arrays are mapped
recursively (`data.map(cleanFirestoreData)` — an array element that is
itself `undefined` is NOT removed), objects drop entries whose value is
`undefined` and clean the kept values, everything else passes through. -/
def cleanFirestoreData : JsValue → JsValue
  | .arr xs => .arr (cleanFirestoreArr xs)
  | .obj fs => .obj (cleanFirestoreFields fs)
  | v => v

/-- Element-wise cleaning of an array (JS `Array.prototype.map`). -/
def cleanFirestoreArr : JsArr → JsArr
  | .nil => .nil
  | .cons v rest => .cons (cleanFirestoreData v) (cleanFirestoreArr rest)

/-- Entry-wise cleaning of an object: `undefined`-valued entries are
omitted, kept values are cleaned recursively. -/
def cleanFirestoreFields : JsObj → JsObj
  | .nil => .nil
  | .cons _ .undef rest => cleanFirestoreFields rest
  | .cons k v rest => .cons k (cleanFirestoreData v) (cleanFirestoreFields rest)

end

mutual

/-- No occurrence of the absent-value sentinel at any nesting depth. -/
def noUndef : JsValue → Bool
  | .undef => false
  | .arr xs => noUndefArr xs
  | .obj fs => noUndefFields fs
  | _ => true

def noUndefArr : JsArr → Bool
  | .nil => true
  | .cons v rest => noUndef v && noUndefArr rest

def noUndefFields : JsObj → Bool
  | .nil => true
  | .cons _ v rest => noUndef v && noUndefFields rest

end

mutual

/-- The sentinel may appear only as an object-field value (where cleaning
removes it), never as an array element.  Every value produced by the typed
data model below satisfies this. -/
def arrSafe : JsValue → Bool
  | .arr xs => arrSafeArr xs
  | .obj fs => arrSafeFields fs
  | _ => true

def arrSafeArr : JsArr → Bool
  | .nil => true
  | .cons .undef _ => false
  | .cons v rest => arrSafe v && arrSafeArr rest

def arrSafeFields : JsObj → Bool
  | .nil => true
  | .cons _ v rest => arrSafe v && arrSafeFields rest

end

/-! ### Typed data model (src/utils/firebase.ts:14-53)

The `Owner`, `BusinessData` and `PaymentDetails` interfaces.  Optional
fields (`?` in TypeScript) are embedded as `Option`; converting to a JS
value emits the field with the absent-value sentinel when the option is
`none`, which is the case the write-path cleaning must remove. -/

def objOfList : List (String × JsValue) → JsObj
  | [] => .nil
  | (k, v) :: rest => .cons k v (objOfList rest)

def arrOfList : List JsValue → JsArr
  | [] => .nil
  | v :: rest => .cons v (arrOfList rest)

structure Owner where
  id : String
  fullName : String
  ownership : String
  isCEO : Option Bool
  birthDate : Option String
  documentUrl : Option String
  documentName : Option String

def Owner.toJs (o : Owner) : JsValue :=
  .obj (objOfList [("id", .str o.id), ("fullName", .str o.fullName),
    ("ownership", .str o.ownership),
    ("isCEO", o.isCEO.elim .undef .bool),
    ("birthDate", o.birthDate.elim .undef .str),
    ("documentUrl", o.documentUrl.elim .undef .str),
    ("documentName", o.documentName.elim .undef .str)])

structure CountryInfo where
  name : String

structure PackageInfo where
  name : String
  price : ℚ

structure CompanyInfo where
  name : String
  type : String
  industry : String

structure AddressInfo where
  street : String
  city : String
  state : String
  postalCode : String
  country : String

structure PaymentDetails where
  amount : ℚ
  currency : String
  paymentMethod : String
  status : String
  stripePaymentIntentId : String

def PaymentDetails.toJsFields (pd : PaymentDetails) : JsObj :=
  objOfList [("amount", .num pd.amount), ("currency", .str pd.currency),
    ("paymentMethod", .str pd.paymentMethod), ("status", .str pd.status),
    ("stripePaymentIntentId", .str pd.stripePaymentIntentId)]

structure BusinessData where
  owner : Option (List Owner)
  country : Option CountryInfo
  package : Option PackageInfo
  company : Option CompanyInfo
  address : Option AddressInfo
  status : Option String
  createdAt : Option ℚ
  updatedAt : Option ℚ
  paymentDetails : Option PaymentDetails

def BusinessData.toJs (bd : BusinessData) : JsObj :=
  objOfList [
    ("owner", bd.owner.elim .undef
      (fun l => .arr (arrOfList (l.map Owner.toJs)))),
    ("country", bd.country.elim .undef
      (fun c => .obj (objOfList [("name", .str c.name)]))),
    ("package", bd.package.elim .undef
      (fun p => .obj (objOfList [("name", .str p.name),
        ("price", .num p.price)]))),
    ("company", bd.company.elim .undef
      (fun c => .obj (objOfList [("name", .str c.name),
        ("type", .str c.type), ("industry", .str c.industry)]))),
    ("address", bd.address.elim .undef
      (fun a => .obj (objOfList [("street", .str a.street),
        ("city", .str a.city), ("state", .str a.state),
        ("postalCode", .str a.postalCode), ("country", .str a.country)]))),
    ("status", bd.status.elim .undef .str),
    ("createdAt", bd.createdAt.elim .undef .num),
    ("updatedAt", bd.updatedAt.elim .undef .num),
    ("paymentDetails", bd.paymentDetails.elim .undef
      (fun pd => .obj pd.toJsFields))]

/-! ### Document store model

Documents live at `users/{userId}/businesses/{businessId}`; a store is a
finite association of those paths to document bodies.  Firestore rejects
the absent-value sentinel outright, so both write entry points check
`noUndefFields` and fail (reject the write) when it is violated; a
successful write replaces or creates the document. `updateDoc`
additionally fails when the document does not exist, and merges the given
top-level fields into the existing body. -/

abbrev DocKey := String × String

abbrev Store := List (DocKey × JsObj)

def storeGet : Store → DocKey → Option JsObj
  | [], _ => none
  | (k', d) :: rest, k => if k' = k then some d else storeGet rest k

def storeSet : Store → DocKey → JsObj → Store
  | [], k, d => [(k, d)]
  | (k', d') :: rest, k, d =>
    if k' = k then (k', d) :: rest else (k', d') :: storeSet rest k d

def setDocChecked (s : Store) (k : DocKey) (v : JsObj) : Except String Store :=
  if noUndefFields v then .ok (storeSet s k v)
  else .error "invalid-argument"

def updateDocChecked (s : Store) (k : DocKey) (u : JsObj) :
    Except String Store :=
  match storeGet s k with
  | none => .error "not-found"
  | some d =>
    if noUndefFields u then .ok (storeSet s k (mergeObj d u))
    else .error "invalid-argument"

/-- The document body `saveBusinessDraft` writes: the spread business data
with `createdAt`/`updatedAt`/`status` overridden, then sentinel-stripped. -/
def draftDoc (businessData : BusinessData) (now : ℚ) : JsObj :=
  cleanFirestoreFields
    (setField (setField (setField businessData.toJs
      "createdAt" (.num now)) "updatedAt" (.num now)) "status" (.str "draft"))

/-- `saveBusinessDraft` (src/utils/firebase.ts:134-153): spreads the given
business data, overrides `createdAt`/`updatedAt` with the server-assigned
instant and `status` with `"draft"`, strips sentinels, and writes a fresh
document whose generated identifier is the `newId` parameter.  Returns the
new id; a write error propagates. -/
def saveBusinessDraft (s : Store) (userId newId : String)
    (businessData : BusinessData) (now : ℚ) : Except String (String × Store) :=
  (setDocChecked s (userId, newId) (draftDoc businessData now)).map
    (fun s' => (newId, s'))

/-- The update payload `completeBusinessRegistration` merges in: the
payment details stamped with a client-observed `createdAt`, plus
`status: "completed"` and a fresh `updatedAt`, sentinel-stripped. -/
def completeUpdate (paymentDetails : PaymentDetails) (now : ℚ) : JsObj :=
  cleanFirestoreFields
    (objOfList [("paymentDetails",
        .obj (setField paymentDetails.toJsFields "createdAt" (.num now))),
      ("status", .str "completed"), ("updatedAt", .num now)])

/-- `completeBusinessRegistration` (src/utils/firebase.ts:156-183): stamps
the payment details with a client-observed `createdAt` instant, then
merges `{paymentDetails, status: "completed", updatedAt}` into the
existing document via a partial update.  Fails when the document does not
exist; the error propagates. -/
def completeBusinessRegistration (s : Store) (userId businessId : String)
    (paymentDetails : PaymentDetails) (now : ℚ) :
    Except String (String × Store) :=
  (updateDocChecked s (userId, businessId)
    (completeUpdate paymentDetails now)).map (fun s' => (businessId, s'))

/-- `getBusinessDraft` (src/utils/firebase.ts:186-199): returns the raw
document body when the document exists, otherwise throws
`"Business draft not found"` (the catch block rethrows the same error). -/
def getBusinessDraft (s : Store) (userId businessId : String) :
    Except String JsObj :=
  match storeGet s (userId, businessId) with
  | some d => .ok d
  | none => .error "Business draft not found"

/-- The update payload `updateBusiness` merges in: the spread partial
update with a fresh `updatedAt` override, sentinel-stripped. -/
def updatePayload (updateData : JsObj) (now : ℚ) : JsObj :=
  cleanFirestoreFields (setField updateData "updatedAt" (.num now))

/-- `updateBusiness` (src/utils/firebase.ts:219-238): spreads the partial
update, overrides `updatedAt` with the server-assigned instant, strips
sentinels, and partial-updates the existing document. -/
def updateBusiness (s : Store) (userId businessId : String)
    (updateData : JsObj) (now : ℚ) : Except String (String × Store) :=
  (updateDocChecked s (userId, businessId)
    (updatePayload updateData now)).map (fun s' => (businessId, s'))

/-! ### Sequences of data-access operations -/

inductive DalOp : Type where
  | create (userId newId : String) (businessData : BusinessData) (now : ℚ)
  | complete (userId businessId : String) (paymentDetails : PaymentDetails)
      (now : ℚ)
  | update (userId businessId : String) (updateData : JsObj) (now : ℚ)

/-- Run one operation; a thrown error propagates to the caller and leaves
the store unchanged. -/
def applyOp (s : Store) : DalOp → Store
  | .create userId newId businessData now =>
    match saveBusinessDraft s userId newId businessData now with
    | .ok (_, s') => s'
    | .error _ => s
  | .complete userId businessId paymentDetails now =>
    match completeBusinessRegistration s userId businessId paymentDetails
        now with
    | .ok (_, s') => s'
    | .error _ => s
  | .update userId businessId updateData now =>
    match updateBusiness s userId businessId updateData now with
    | .ok (_, s') => s'
    | .error _ => s

def applyOps (s : Store) : List DalOp → Store
  | [] => s
  | op :: rest => applyOps (applyOp s op) rest

/-! ### The status / paymentDetails invariant (claim C3) -/

/-- The document's `status` field holds exactly the given string. -/
def statusIs (d : JsObj) (st : String) : Bool :=
  match getField d "status" with
  | some (.str s) => s == st
  | _ => false

/-- One document's invariant: status is `"draft"`, or it is `"completed"`
and `paymentDetails` is present. -/
def docInv (d : JsObj) : Bool :=
  if statusIs d "completed" then hasKey d "paymentDetails"
  else statusIs d "draft"

def storeInv : Store → Bool
  | [] => true
  | (_, d) :: rest => docInv d && storeInv rest

/-- Every document body in the store is free of the sentinel (claim C8's
read-back guarantee). -/
def storeClean : Store → Bool
  | [] => true
  | (_, d) :: rest => noUndefFields d && storeClean rest

def storeStatusIs (s : Store) (k : DocKey) (st : String) : Bool :=
  match storeGet s k with
  | some d => statusIs d st
  | none => false

/-- Side conditions on an operation, as the spec assumes them: a created
draft gets a fresh (unused) document identity, and a partial update's
payload does not touch the `status` field. -/
def goodOp (s : Store) : DalOp → Bool
  | .create userId newId _ _ => (storeGet s (userId, newId)).isNone
  | .complete _ _ _ _ => true
  | .update _ _ updateData _ => !(hasKey updateData "status")

def goodTrace (s : Store) : List DalOp → Bool
  | [] => true
  | op :: rest => goodOp s op && goodTrace (applyOp s op) rest


/-- A minimal business draft (all optional fields absent). -/
def sampleBusinessData : BusinessData :=
  ⟨none, none, none, none, none, none, none, none, none⟩

/-- A concrete payment-details record used in witnesses. -/
def samplePaymentDetails : PaymentDetails :=
  ⟨100, "usd", "card", "succeeded", "pi_1"⟩

/-! ### Number and JSON serialization models

The wizard persists the step as `newStep.toString()` and restores it with
`Number.parseInt(savedStep, 10)`; it persists the form data as
`JSON.stringify(newData)` and restores it with `JSON.parse(savedData)`.
`jsToString`/`jsParseInt` model the decimal round trip (on all-digit
strings, which is what `toString` produces); `jsonRoundtrip` models
`parse ∘ stringify` at the value-tree level: `File` handles serialize as
`{}` (no enumerable own properties), `undefined`-valued object entries are
dropped, and `undefined` array elements become `null`. -/

def digitToChar (d : ℕ) : Char := Char.ofNat (48 + d)

def charToDigit (c : Char) : ℕ := c.toNat - 48

def isDigitChar (c : Char) : Bool :=
  decide (48 ≤ c.toNat) && decide (c.toNat ≤ 57)

/-- Little-endian base-10 digits with structural fuel (equal to
`Nat.digits 10` when the fuel is at least `n`). -/
def natDigitsRev : ℕ → ℕ → List ℕ
  | 0, _ => []
  | _ + 1, 0 => []
  | fuel + 1, n + 1 => ((n + 1) % 10) :: natDigitsRev fuel ((n + 1) / 10)

def jsToString (n : ℕ) : String :=
  if n = 0 then "0"
  else String.mk (((natDigitsRev n n).reverse).map digitToChar)

def jsParseInt (s : String) : Option ℕ :=
  let cs := s.toList
  if cs.isEmpty then none
  else if cs.all isDigitChar then
    some (cs.foldl (fun a c => 10 * a + charToDigit c) 0)
  else none

mutual

def jsonRoundtrip : JsValue → JsValue
  | .undef => .undef
  | .null => .null
  | .bool b => .bool b
  | .num q => .num q
  | .str s => .str s
  | .file _ => .obj .nil
  | .arr xs => .arr (jsonRoundtripArr xs)
  | .obj fs => .obj (jsonRoundtripFields fs)

def jsonRoundtripArr : JsArr → JsArr
  | .nil => .nil
  | .cons .undef rest => .cons .null (jsonRoundtripArr rest)
  | .cons v rest => .cons (jsonRoundtrip v) (jsonRoundtripArr rest)

def jsonRoundtripFields : JsObj → JsObj
  | .nil => .nil
  | .cons _ .undef rest => jsonRoundtripFields rest
  | .cons k v rest => .cons k (jsonRoundtrip v) (jsonRoundtripFields rest)

end

mutual

/-- A plain JSON-serializable value: no absent-value sentinel and no
in-memory file handle at any depth.  On these, serialization is lossless. -/
def isPlain : JsValue → Bool
  | .undef => false
  | .file _ => false
  | .arr xs => isPlainArr xs
  | .obj fs => isPlainFields fs
  | _ => true

def isPlainArr : JsArr → Bool
  | .nil => true
  | .cons v rest => isPlain v && isPlainArr rest

def isPlainFields : JsObj → Bool
  | .nil => true
  | .cons _ v rest => isPlain v && isPlainFields rest

end

/-! ### The registration wizard (src/unnamed/part_001)

State of `BusinessPage`: the current step, the accumulated `formData`
object, the two sessionStorage entries (`businessRegistrationStep`,
`businessRegistrationData` — the latter held as the JSON tree its stored
text parses back to), and whether back-navigation at step 1 exited the
wizard (`router.push("/dashboard/business")`). -/

structure WizardState where
  currentStep : ℕ
  formData : JsObj
  storedStep : Option String
  storedData : Option JsValue
  exited : Bool

/-- The owner projection in `handleNext` case 4: every owner in the
incoming array is rebuilt with exactly these six properties. -/
def ownerFromStep (o : JsValue) : JsValue :=
  .obj (objOfList [("id", jsGet o "id"), ("fullName", jsGet o "fullName"),
    ("ownership", jsGet o "ownership"), ("isCEO", jsGet o "isCEO"),
    ("birthDate", jsGet o "birthDate"), ("document", jsGet o "document")])

def mapOwners : JsArr → JsArr
  | .nil => .nil
  | .cons o rest => .cons (ownerFromStep o) (mapOwners rest)

/-- JS `Object.assign(target, source)`: copies the source's fields onto
the target; a non-object source contributes nothing. -/
def objectAssign (d : JsObj) (sd : JsValue) : JsObj :=
  match sd with
  | .obj fs => mergeObj d fs
  | _ => d

/-- The `switch (currentStep)` in `handleNext`
(src/unnamed/part_001:101-142).  Steps 1-5 write one designated field;
every other step falls to `Object.assign(newData, stepData)`.  Step 4 maps
over `stepData`, which throws (here: `none`) unless it is an array. -/
def mergeStep (step : ℕ) (prev : JsObj) (stepData : JsValue) : Option JsObj :=
  match step with
  | 1 => some (setField prev "country"
      (.obj (objOfList [("name", jsGet stepData "name")])))
  | 2 => some (setField prev "package"
      (.obj (objOfList [("name", jsGet stepData "name"),
        ("price", jsGet stepData "price")])))
  | 3 => some (setField prev "company"
      (.obj (objOfList [("name", jsGet stepData "name"),
        ("type", jsGet stepData "type"),
        ("industry", jsGet stepData "industry")])))
  | 4 =>
    match stepData with
    | .arr owners => some (setField prev "owner" (.arr (mapOwners owners)))
    | _ => none
  | 5 => some (setField prev "address"
      (.obj (objOfList [("street", jsGet stepData "street"),
        ("city", jsGet stepData "city"), ("state", jsGet stepData "state"),
        ("postalCode", jsGet stepData "postalCode"),
        ("country", jsGet stepData "country")])))
  | _ => some (objectAssign prev stepData)

/-- The field a step's merge contract designates (steps 1-5). -/
def stepField : ℕ → String
  | 1 => "country"
  | 2 => "package"
  | 3 => "company"
  | 4 => "owner"
  | 5 => "address"
  | _ => ""

/-- `handleNext` (src/unnamed/part_001:97-156): merge the step payload
into the form data, persist the merged data and the incremented step to
sessionStorage, and advance one step. -/
def handleNext (st : WizardState) (stepData : JsValue) : Option WizardState :=
  (mergeStep st.currentStep st.formData stepData).map fun newData =>
    { currentStep := st.currentStep + 1,
      formData := newData,
      storedStep := some (jsToString (st.currentStep + 1)),
      storedData := some (jsonRoundtrip (.obj newData)),
      exited := st.exited }

/-- `handleBack` (src/unnamed/part_001:158-170): at step 1 navigate out of
the wizard; otherwise decrement and persist the decremented step. -/
def handleBack (st : WizardState) : WizardState :=
  if st.currentStep = 1 then { st with exited := true }
  else
    { st with
      currentStep := st.currentStep - 1,
      storedStep := some (jsToString (st.currentStep - 1)) }

/-- `handleEdit` (src/unnamed/part_001:172-177): jump straight to the
target step and persist it; the form data is untouched. -/
def handleEdit (st : WizardState) (step : ℕ) : WizardState :=
  { st with currentStep := step, storedStep := some (jsToString step) }

/-- The Review step's `onNext` (src/unnamed/part_001:204):
`() => setCurrentStep(7)` — it writes neither sessionStorage entry. -/
def reviewOnNext (st : WizardState) : WizardState :=
  { st with currentStep := 7 }

/-! ### The Draft Store (sessionStorage save / load) -/

structure SessionStorage where
  step : Option String
  data : Option JsValue

/-- The two `sessionStorage.setItem` calls performed after a Step
Controller mutation: `businessRegistrationStep := step.toString()` and
`businessRegistrationData := JSON.stringify(data)` (held as the tree the
stored text parses back to). -/
def saveSession (step : ℕ) (data : JsValue) : SessionStorage :=
  { step := some (jsToString step), data := some (jsonRoundtrip data) }

/-- The session-restore effect (src/unnamed/part_001:67-84): read both
entries, `Number.parseInt` the step, `JSON.parse` the data. -/
def loadSession (ss : SessionStorage) : Option ℕ × Option JsValue :=
  (ss.step.bind jsParseInt, ss.data)

/-! ### The checkout endpoint (src/unnamed/part_000)

`POST` reads `{amount, businessId, userId}` from the request, builds the
provider session parameters (a single "usd" line item at `amount * 100`
minor units, one-time payment mode, redirect URLs derived from the
configured base URL, the two identifiers as metadata), and answers
`{sessionId}` on success or a fixed opaque 500 error on any provider
failure.  The provider is a parameter: the proof quantifies over its
behavior. -/

structure CheckoutRequest where
  amount : ℚ
  businessId : String
  userId : String

structure PriceData where
  currency : String
  productName : String
  unit_amount : ℚ

structure LineItem where
  price_data : PriceData
  quantity : ℕ

structure SessionParams where
  payment_method_types : List String
  line_items : List LineItem
  mode : String
  success_url : String
  cancel_url : String
  metadata_businessId : String
  metadata_userId : String

inductive ProviderResult : Type where
  | ok (sessionId : String)
  | err (detail : String)

structure HttpResponse where
  status : ℕ
  body : JsObj

def checkoutSessionParams (baseUrl : String) (req : CheckoutRequest) :
    SessionParams :=
  { payment_method_types := ["card"],
    line_items := [⟨⟨"usd", "Business Registration", req.amount * 100⟩, 1⟩],
    mode := "payment",
    success_url := baseUrl ++
      "/dashboard/business/success?session_id={CHECKOUT_SESSION_ID}",
    cancel_url := baseUrl ++ "/dashboard/business?payment=cancel",
    metadata_businessId := req.businessId,
    metadata_userId := req.userId }

def POST (baseUrl : String) (req : CheckoutRequest)
    (provider : SessionParams → ProviderResult) : HttpResponse :=
  match provider (checkoutSessionParams baseUrl req) with
  | .ok sessionId =>
    ⟨200, JsObj.cons "sessionId" (.str sessionId) .nil⟩
  | .err _ =>
    ⟨500, JsObj.cons "error" (.str "Error creating checkout session") .nil⟩

/-! ### Storage URLs (src/utils/firebase.ts:121-131, 241-244)

`getStoragePathFromUrl` and `deleteDocument` both compute
`decodeURIComponent(url).split('/o/')[1].split('?')[0]`.  Percent coding
is modelled at character granularity with one byte per `%XX` escape
(faithful to `encodeURIComponent`/`decodeURIComponent` for code points
below 128); a decoding failure (`URIError`) and an out-of-range index
(`[1]` on a split with no match, whose `undefined` makes the second split
throw) are modelled as `none`. -/

def hexDigitChar (n : ℕ) : Char :=
  if n < 10 then Char.ofNat (48 + n) else Char.ofNat (55 + n)

def hexVal (c : Char) : Option ℕ :=
  if 48 ≤ c.toNat ∧ c.toNat ≤ 57 then some (c.toNat - 48)
  else if 65 ≤ c.toNat ∧ c.toNat ≤ 70 then some (c.toNat - 55)
  else if 97 ≤ c.toNat ∧ c.toNat ≤ 102 then some (c.toNat - 87)
  else none

def isUnreservedChar (c : Char) : Bool :=
  c.isAlpha || c.isDigit ||
    c ∈ ['-', '_', '.', '!', '~', '*', '(', ')'] || c == Char.ofNat 39

def percentEncodeChar (c : Char) : List Char :=
  if isUnreservedChar c then [c]
  else ['%', hexDigitChar (c.toNat / 16 % 16), hexDigitChar (c.toNat % 16)]

def percentEncode : List Char → List Char
  | [] => []
  | c :: rest => percentEncodeChar c ++ percentEncode rest

def percentDecodeList : List Char → Option (List Char)
  | [] => some []
  | c :: rest =>
    if c = '%' then
      match rest with
      | a :: b :: rest' =>
        match hexVal a, hexVal b with
        | some x, some y =>
          (percentDecodeList rest').map (fun l => Char.ofNat (16 * x + y) :: l)
        | _, _ => none
      | _ => none
    else (percentDecodeList rest).map (fun l => c :: l)

def noPercent (s : List Char) : Bool := s.all (fun c => !(c == '%'))

/-- Is the first list an initial segment of the second? -/
def isPrefixL : List Char → List Char → Bool
  | [], _ => true
  | _ :: _, [] => false
  | a :: as, b :: bs => a == b && isPrefixL as bs

/-- JS `String.prototype.split` with a non-empty separator, scanning left
to right with non-overlapping matches; structural fuel (the string length
suffices). -/
def splitGoFuel (sep : List Char) : ℕ → List Char → List (List Char)
  | _, [] => [[]]
  | 0, s => [s]
  | fuel + 1, c :: rest =>
    if isPrefixL sep (c :: rest) then
      [] :: splitGoFuel sep fuel (List.drop (sep.length - 1) rest)
    else
      match splitGoFuel sep fuel rest with
      | f :: r => (c :: f) :: r
      | [] => [[c]]

def jsSplit (sep s : List Char) : List (List Char) :=
  if sep.isEmpty then [s] else splitGoFuel sep s.length s

/-- The separator `'/o/'`. -/
def oSep : List Char := ['/', 'o', '/']

/-- The separator `'?'`. -/
def qSep : List Char := ['?']

/-- `getStoragePathFromUrl` (src/utils/firebase.ts:241-244):
`decodeURIComponent(url).split('/o/')[1].split('?')[0]`.  `none` models a
thrown exception: either `decodeURIComponent` throwing `URIError`, or
`split('/o/')` finding no separator so that index `[1]` is `undefined`
and the second `split` throws. -/
def getStoragePathFromUrl (url : String) : Option String :=
  match percentDecodeList url.toList with
  | none => none
  | some decoded =>
    match jsSplit oSep decoded with
    | _ :: second :: _ => some (String.mk ((jsSplit qSep second).headD []))
    | _ => none

/-- `deleteDocument` (src/utils/firebase.ts:121-131): derives the storage
path from the download URL with the same decode/split computation, then
deletes the backing object; any error in the try block is replaced by the
generic `"Failed to delete document"`.  Storage is a list of object
paths; deleting a missing object rejects. -/
def deleteDocument (storage : List String) (documentUrl : String) :
    Except String (List String) :=
  match getStoragePathFromUrl documentUrl with
  | none => .error "Failed to delete document"
  | some path =>
    if path ∈ storage then .ok (storage.erase path)
    else .error "Failed to delete document"

/-! ### END OF DEFINITIONS (more definitions are inserted above this line) -/

mutual

theorem clean_noUndef : ∀ v : JsValue, arrSafe v = true → v ≠ .undef →
    noUndef (cleanFirestoreData v) = true
  | .undef, _, h => absurd rfl h
  | .null, _, _ => rfl
  | .bool _, _, _ => rfl
  | .num _, _, _ => rfl
  | .str _, _, _ => rfl
  | .file _, _, _ => rfl
  | .arr xs, h, _ => clean_noUndef_arr xs h
  | .obj fs, h, _ => clean_noUndef_fields fs h

theorem clean_noUndef_arr : ∀ xs : JsArr, arrSafeArr xs = true →
    noUndefArr (cleanFirestoreArr xs) = true
  | .nil, _ => rfl
  | .cons v rest, h => by
    cases v with
    | undef => simp [arrSafeArr] at h
    | _ =>
      simp only [arrSafeArr, Bool.and_eq_true] at h
      simp only [cleanFirestoreArr, noUndefArr, Bool.and_eq_true]
      exact ⟨clean_noUndef _ h.1 (by intro hc; cases hc),
             clean_noUndef_arr rest h.2⟩

theorem clean_noUndef_fields : ∀ fs : JsObj, arrSafeFields fs = true →
    noUndefFields (cleanFirestoreFields fs) = true
  | .nil, _ => rfl
  | .cons k v rest, h => by
    simp only [arrSafeFields, Bool.and_eq_true] at h
    cases v with
    | undef => exact clean_noUndef_fields rest h.2
    | null =>
      simp only [cleanFirestoreFields, noUndefFields, Bool.and_eq_true]
      exact ⟨clean_noUndef _ h.1 (by intro hc; cases hc),
             clean_noUndef_fields rest h.2⟩
    | bool b =>
      simp only [cleanFirestoreFields, noUndefFields, Bool.and_eq_true]
      exact ⟨clean_noUndef _ h.1 (by intro hc; cases hc),
             clean_noUndef_fields rest h.2⟩
    | num q =>
      simp only [cleanFirestoreFields, noUndefFields, Bool.and_eq_true]
      exact ⟨clean_noUndef _ h.1 (by intro hc; cases hc),
             clean_noUndef_fields rest h.2⟩
    | str s =>
      simp only [cleanFirestoreFields, noUndefFields, Bool.and_eq_true]
      exact ⟨clean_noUndef _ h.1 (by intro hc; cases hc),
             clean_noUndef_fields rest h.2⟩
    | file n =>
      simp only [cleanFirestoreFields, noUndefFields, Bool.and_eq_true]
      exact ⟨clean_noUndef _ h.1 (by intro hc; cases hc),
             clean_noUndef_fields rest h.2⟩
    | arr xs =>
      simp only [cleanFirestoreFields, noUndefFields, Bool.and_eq_true]
      exact ⟨clean_noUndef _ h.1 (by intro hc; cases hc),
             clean_noUndef_fields rest h.2⟩
    | obj gs =>
      simp only [cleanFirestoreFields, noUndefFields, Bool.and_eq_true]
      exact ⟨clean_noUndef _ h.1 (by intro hc; cases hc),
             clean_noUndef_fields rest h.2⟩

end

/-! ### Basic lemmas about field access, update, and cleaning -/

theorem getField_setField_self : ∀ (fs : JsObj) (k : String) (v : JsValue),
    getField (setField fs k v) k = some v
  | .nil, k, v => by simp [setField, getField]
  | .cons k' w rest, k, v => by
    by_cases h : k' = k
    · simp [setField, h, getField]
    · simp [setField, h, getField, getField_setField_self rest k v]

theorem getField_setField_other : ∀ (fs : JsObj) (k k' : String) (v : JsValue),
    k ≠ k' → getField (setField fs k v) k' = getField fs k'
  | .nil, k, k', v, h => by simp [setField, getField, h]
  | .cons k'' w rest, k, k', v, h => by
    by_cases h2 : k'' = k
    · subst h2
      simp [setField, getField, h]
    · simp [setField, h2, getField, getField_setField_other rest k k' v h]

theorem setField_getField_eq : ∀ (fs : JsObj) (k : String) (v : JsValue),
    getField fs k = some v → setField fs k v = fs
  | .nil, k, v, h => by simp [getField] at h
  | .cons k' w rest, k, v, h => by
    by_cases h2 : k' = k
    · subst h2
      simp [getField] at h
      simp [setField, h]
    · simp [getField, h2] at h
      simp [setField, h2, setField_getField_eq rest k v h]

theorem hasKey_setField_self : ∀ (fs : JsObj) (k : String) (v : JsValue),
    hasKey (setField fs k v) k = true
  | .nil, k, v => by simp [setField, hasKey]
  | .cons k' w rest, k, v => by
    by_cases h : k' = k
    · simp [setField, h, hasKey]
    · simp [setField, h, hasKey, hasKey_setField_self rest k v]

theorem getField_mergeObj_absent : ∀ (u d : JsObj) (k : String),
    hasKey u k = false → getField (mergeObj d u) k = getField d k
  | .nil, d, k, _ => by simp [mergeObj]
  | .cons k' v rest, d, k, h => by
    simp only [hasKey] at h
    by_cases h2 : k' = k
    · simp [h2] at h
    · simp only [mergeObj]
      rw [getField_mergeObj_absent rest _ k (by simpa [h2] using h),
          getField_setField_other _ _ _ _ h2]

theorem noUndefFields_setField : ∀ (fs : JsObj) (k : String) (v : JsValue),
    noUndefFields fs = true → noUndef v = true →
    noUndefFields (setField fs k v) = true
  | .nil, k, v, _, hv => by simp [setField, noUndefFields, hv]
  | .cons k' w rest, k, v, hfs, hv => by
    simp only [noUndefFields, Bool.and_eq_true] at hfs
    by_cases h : k' = k
    · simp [setField, h, noUndefFields, hv, hfs.2]
    · simp [setField, h, noUndefFields, hfs.1,
        noUndefFields_setField rest k v hfs.2 hv]

theorem noUndefFields_mergeObj : ∀ (u d : JsObj),
    noUndefFields d = true → noUndefFields u = true →
    noUndefFields (mergeObj d u) = true
  | .nil, d, hd, _ => by simpa [mergeObj] using hd
  | .cons k v rest, d, hd, hu => by
    simp only [noUndefFields, Bool.and_eq_true] at hu
    simp only [mergeObj]
    exact noUndefFields_mergeObj rest _
      (noUndefFields_setField d k v hd hu.1) hu.2

/-- A field whose (first-occurrence) value is not the sentinel survives
cleaning, with a cleaned value. -/
theorem getField_cleanFields_of_ne : ∀ (fs : JsObj) (k : String) (v : JsValue),
    getField fs k = some v → v ≠ .undef →
    getField (cleanFirestoreFields fs) k = some (cleanFirestoreData v)
  | .nil, k, v, h, _ => by simp [getField] at h
  | .cons k' w rest, k, v, h, hv => by
    by_cases h2 : k' = k
    · subst h2
      simp [getField] at h
      subst h
      cases w with
      | undef => exact absurd rfl hv
      | _ => simp [cleanFirestoreFields, getField]
    · simp only [getField, if_neg h2] at h
      cases w with
      | undef =>
        simp only [cleanFirestoreFields]
        exact getField_cleanFields_of_ne rest k v h hv
      | _ =>
        simp only [cleanFirestoreFields, getField, if_neg h2]
        exact getField_cleanFields_of_ne rest k v h hv

theorem owner_toJs_arrSafe (o : Owner) : arrSafe o.toJs = true := by
  cases o with
  | mk id fullName ownership isCEO birthDate documentUrl documentName =>
    cases isCEO <;> cases birthDate <;> cases documentUrl <;>
      cases documentName <;>
      simp [Owner.toJs, objOfList, arrSafe, arrSafeFields, Option.elim]

theorem owners_arrSafeArr : ∀ l : List Owner,
    arrSafeArr (arrOfList (l.map Owner.toJs)) = true
  | [] => rfl
  | o :: rest => by
    have h1 := owner_toJs_arrSafe o
    have h2 := owners_arrSafeArr rest
    cases o with
    | mk id fullName ownership isCEO birthDate documentUrl documentName =>
      simpa [Owner.toJs, objOfList, arrOfList, arrSafeArr] using
        And.intro h1 h2

theorem paymentDetails_arrSafe (pd : PaymentDetails) :
    arrSafeFields pd.toJsFields = true := by
  simp [PaymentDetails.toJsFields, objOfList, arrSafeFields, arrSafe]

theorem businessData_toJs_arrSafe (bd : BusinessData) :
    arrSafeFields bd.toJs = true := by
  cases bd with
  | mk owner country package company address status createdAt updatedAt
      paymentDetails =>
    cases owner <;> cases country <;> cases package <;> cases company <;>
      cases address <;> cases status <;> cases createdAt <;>
      cases updatedAt <;> cases paymentDetails <;>
      simp [BusinessData.toJs, objOfList, arrSafeFields, arrSafe,
        Option.elim, owners_arrSafeArr, paymentDetails_arrSafe]

/-! ### Store and key lemmas -/

theorem hasKey_setField_other : ∀ (fs : JsObj) (k k' : String) (v : JsValue),
    k ≠ k' → hasKey (setField fs k v) k' = hasKey fs k'
  | .nil, k, k', v, h => by simp [setField, hasKey, h]
  | .cons k'' w rest, k, k', v, h => by
    by_cases h2 : k'' = k
    · subst h2
      simp [setField, hasKey, h]
    · simp [setField, h2, hasKey, hasKey_setField_other rest k k' v h]

theorem hasKey_setField_mono (fs : JsObj) (k k' : String) (v : JsValue)
    (h : hasKey fs k = true) : hasKey (setField fs k' v) k = true := by
  by_cases h2 : k' = k
  · subst h2
    exact hasKey_setField_self fs k' v
  · rwa [hasKey_setField_other fs k' k v h2]

theorem hasKey_mergeObj_mono : ∀ (u d : JsObj) (k : String),
    hasKey d k = true → hasKey (mergeObj d u) k = true
  | .nil, d, k, h => h
  | .cons k' v rest, d, k, h => by
    simp only [mergeObj]
    exact hasKey_mergeObj_mono rest _ k (hasKey_setField_mono d k k' v h)

theorem hasKey_cleanFields_false : ∀ (fs : JsObj) (k : String),
    hasKey fs k = false → hasKey (cleanFirestoreFields fs) k = false
  | .nil, k, _ => rfl
  | .cons k' v rest, k, h => by
    simp only [hasKey] at h
    by_cases h2 : k' = k
    · simp [h2] at h
    · have hr := hasKey_cleanFields_false rest k (by simpa [h2] using h)
      cases v with
      | undef => simpa [cleanFirestoreFields] using hr
      | _ => simpa [cleanFirestoreFields, hasKey, h2] using hr

theorem arrSafeFields_setField : ∀ (fs : JsObj) (k : String) (v : JsValue),
    arrSafeFields fs = true → arrSafe v = true →
    arrSafeFields (setField fs k v) = true
  | .nil, k, v, _, hv => by simp [setField, arrSafeFields, hv]
  | .cons k' w rest, k, v, hfs, hv => by
    simp only [arrSafeFields, Bool.and_eq_true] at hfs
    by_cases h : k' = k
    · simp [setField, h, arrSafeFields, hv, hfs.2]
    · simp [setField, h, arrSafeFields, hfs.1,
        arrSafeFields_setField rest k v hfs.2 hv]

theorem storeGet_storeSet_self : ∀ (s : Store) (k : DocKey) (d : JsObj),
    storeGet (storeSet s k d) k = some d := by
  intro s k d
  induction s with
  | nil => simp [storeSet, storeGet]
  | cons kd rest ih =>
    obtain ⟨k', d'⟩ := kd
    by_cases h : k' = k
    · simp [storeSet, h, storeGet]
    · simp [storeSet, h, storeGet, ih]

theorem storeGet_storeSet_other : ∀ (s : Store) (k k' : DocKey) (d : JsObj),
    k ≠ k' → storeGet (storeSet s k d) k' = storeGet s k' := by
  intro s k k' d h
  induction s with
  | nil => simp [storeSet, storeGet, h]
  | cons kd rest ih =>
    obtain ⟨k'', d''⟩ := kd
    by_cases h2 : k'' = k
    · subst h2
      simp [storeSet, storeGet, h]
    · simp [storeSet, h2, storeGet, ih]

/-! ### Facts about the written document bodies -/

theorem getField_hasKey : ∀ (fs : JsObj) (k : String) (v : JsValue),
    getField fs k = some v → hasKey fs k = true
  | .nil, k, v, h => by simp [getField] at h
  | .cons k' w rest, k, v, h => by
    by_cases h2 : k' = k
    · simp [hasKey, h2]
    · simp only [getField, if_neg h2] at h
      simp [hasKey, h2, getField_hasKey rest k v h]

theorem draftDoc_noUndef (bd : BusinessData) (now : ℚ) :
    noUndefFields (draftDoc bd now) = true :=
  clean_noUndef_fields _
    (arrSafeFields_setField _ _ _
      (arrSafeFields_setField _ _ _
        (arrSafeFields_setField _ _ _ (businessData_toJs_arrSafe bd) rfl)
        rfl) rfl)

theorem draftDoc_status (bd : BusinessData) (now : ℚ) :
    getField (draftDoc bd now) "status" = some (.str "draft") :=
  getField_cleanFields_of_ne _ "status" (.str "draft")
    (getField_setField_self _ _ _) (fun h => JsValue.noConfusion h)

theorem draftDoc_docInv (bd : BusinessData) (now : ℚ) :
    docInv (draftDoc bd now) = true := by
  simp [docInv, statusIs, draftDoc_status]

theorem saveBusinessDraft_eq (s : Store) (uid id : String)
    (bd : BusinessData) (now : ℚ) :
    saveBusinessDraft s uid id bd now =
      .ok (id, storeSet s (uid, id) (draftDoc bd now)) := by
  simp [saveBusinessDraft, setDocChecked, draftDoc_noUndef, Except.map]

theorem completeUpdate_eq (pd : PaymentDetails) (now : ℚ) :
    completeUpdate pd now =
      objOfList [("paymentDetails",
          .obj (setField pd.toJsFields "createdAt" (.num now))),
        ("status", .str "completed"), ("updatedAt", .num now)] := rfl

theorem completeUpdate_noUndef (pd : PaymentDetails) (now : ℚ) :
    noUndefFields (completeUpdate pd now) = true := rfl

theorem mergeObj_completeUpdate (d : JsObj) (pd : PaymentDetails) (now : ℚ) :
    mergeObj d (completeUpdate pd now) =
      setField (setField (setField d "paymentDetails"
          (.obj (setField pd.toJsFields "createdAt" (.num now))))
        "status" (.str "completed")) "updatedAt" (.num now) := rfl

theorem completedDoc_status (d : JsObj) (pd : PaymentDetails) (now : ℚ) :
    getField (mergeObj d (completeUpdate pd now)) "status" =
      some (.str "completed") := by
  rw [mergeObj_completeUpdate,
    getField_setField_other _ "updatedAt" "status" _ (by decide)]
  exact getField_setField_self _ _ _

theorem completedDoc_pd (d : JsObj) (pd : PaymentDetails) (now : ℚ) :
    getField (mergeObj d (completeUpdate pd now)) "paymentDetails" =
      some (.obj (setField pd.toJsFields "createdAt" (.num now))) := by
  rw [mergeObj_completeUpdate,
    getField_setField_other _ "updatedAt" "paymentDetails" _ (by decide),
    getField_setField_other _ "status" "paymentDetails" _ (by decide)]
  exact getField_setField_self _ _ _

theorem completedDoc_docInv (d : JsObj) (pd : PaymentDetails) (now : ℚ) :
    docInv (mergeObj d (completeUpdate pd now)) = true := by
  simp [docInv, statusIs, completedDoc_status]
  exact getField_hasKey _ _ _ (completedDoc_pd d pd now)

theorem updatePayload_no_status (ud : JsObj) (now : ℚ)
    (h : hasKey ud "status" = false) :
    hasKey (updatePayload ud now) "status" = false := by
  unfold updatePayload
  apply hasKey_cleanFields_false
  rw [hasKey_setField_other _ "updatedAt" "status" _ (by decide)]
  exact h

theorem updatedDoc_docInv (u d : JsObj) (hd : docInv d = true)
    (hu : hasKey u "status" = false) : docInv (mergeObj d u) = true := by
  have hst : getField (mergeObj d u) "status" = getField d "status" :=
    getField_mergeObj_absent u d "status" hu
  cases hg : getField d "status" with
  | none => simp [docInv, statusIs, hg] at hd
  | some v =>
    cases v with
    | str st =>
      by_cases hc : st = "completed"
      · subst hc
        simp [docInv, statusIs, hg] at hd
        simp [docInv, statusIs, hst, hg]
        exact hasKey_mergeObj_mono u d "paymentDetails" hd
      · simp [docInv, statusIs, hg, hc] at hd
        simp [docInv, statusIs, hst, hg, hc, hd]
    | _ => simp [docInv, statusIs, hg] at hd

/-! ### Store-level invariant preservation -/

theorem storeInv_storeSet (s : Store) (k : DocKey) (d : JsObj)
    (hs : storeInv s = true) (hd : docInv d = true) :
    storeInv (storeSet s k d) = true := by
  induction s with
  | nil => simp [storeSet, storeInv, hd]
  | cons kd rest ih =>
    obtain ⟨k', d'⟩ := kd
    simp only [storeInv, Bool.and_eq_true] at hs
    by_cases h : k' = k
    · simp [storeSet, h, storeInv, hd, hs.2]
    · simp [storeSet, h, storeInv, hs.1, ih hs.2]

theorem storeClean_storeSet (s : Store) (k : DocKey) (d : JsObj)
    (hs : storeClean s = true) (hd : noUndefFields d = true) :
    storeClean (storeSet s k d) = true := by
  induction s with
  | nil => simp [storeSet, storeClean, hd]
  | cons kd rest ih =>
    obtain ⟨k', d'⟩ := kd
    simp only [storeClean, Bool.and_eq_true] at hs
    by_cases h : k' = k
    · simp [storeSet, h, storeClean, hd, hs.2]
    · simp [storeSet, h, storeClean, hs.1, ih hs.2]

theorem storeClean_get (s : Store) (k : DocKey) (d : JsObj)
    (hs : storeClean s = true) (hg : storeGet s k = some d) :
    noUndefFields d = true := by
  induction s with
  | nil => simp [storeGet] at hg
  | cons kd rest ih =>
    obtain ⟨k', d'⟩ := kd
    simp only [storeClean, Bool.and_eq_true] at hs
    by_cases h : k' = k
    · simp only [storeGet, if_pos h, Option.some.injEq] at hg
      subst hg
      exact hs.1
    · simp only [storeGet, if_neg h] at hg
      exact ih hs.2 hg

theorem storeInv_get (s : Store) (k : DocKey) (d : JsObj)
    (hs : storeInv s = true) (hg : storeGet s k = some d) :
    docInv d = true := by
  induction s with
  | nil => simp [storeGet] at hg
  | cons kd rest ih =>
    obtain ⟨k', d'⟩ := kd
    simp only [storeInv, Bool.and_eq_true] at hs
    by_cases h : k' = k
    · simp only [storeGet, if_pos h, Option.some.injEq] at hg
      subst hg
      exact hs.1
    · simp only [storeGet, if_neg h] at hg
      exact ih hs.2 hg

/-! ### Characterizing each operation's effect on the store -/

theorem completeBusinessRegistration_ok (s : Store) (uid bid : String)
    (pd : PaymentDetails) (now : ℚ) (d : JsObj)
    (hd : storeGet s (uid, bid) = some d) :
    completeBusinessRegistration s uid bid pd now =
      .ok (bid, storeSet s (uid, bid) (mergeObj d (completeUpdate pd now))) := by
  simp [completeBusinessRegistration, updateDocChecked, hd,
    completeUpdate_noUndef, Except.map]

theorem completeBusinessRegistration_notFound (s : Store) (uid bid : String)
    (pd : PaymentDetails) (now : ℚ) (hd : storeGet s (uid, bid) = none) :
    completeBusinessRegistration s uid bid pd now = .error "not-found" := by
  simp [completeBusinessRegistration, updateDocChecked, hd, Except.map]

theorem updateBusiness_ok (s : Store) (uid bid : String) (ud : JsObj)
    (now : ℚ) (d : JsObj) (hd : storeGet s (uid, bid) = some d)
    (hok : noUndefFields (updatePayload ud now) = true) :
    updateBusiness s uid bid ud now =
      .ok (bid, storeSet s (uid, bid) (mergeObj d (updatePayload ud now))) := by
  simp [updateBusiness, updateDocChecked, hd, hok, Except.map]

theorem applyOp_create (s : Store) (uid id : String) (bd : BusinessData)
    (now : ℚ) :
    applyOp s (.create uid id bd now) =
      storeSet s (uid, id) (draftDoc bd now) := by
  simp [applyOp, saveBusinessDraft_eq]

theorem applyOp_complete_some (s : Store) (uid bid : String)
    (pd : PaymentDetails) (now : ℚ) (d : JsObj)
    (hd : storeGet s (uid, bid) = some d) :
    applyOp s (.complete uid bid pd now) =
      storeSet s (uid, bid) (mergeObj d (completeUpdate pd now)) := by
  simp [applyOp, completeBusinessRegistration_ok s uid bid pd now d hd]

theorem applyOp_complete_none (s : Store) (uid bid : String)
    (pd : PaymentDetails) (now : ℚ) (hd : storeGet s (uid, bid) = none) :
    applyOp s (.complete uid bid pd now) = s := by
  simp [applyOp, completeBusinessRegistration_notFound s uid bid pd now hd]

theorem applyOp_update_some (s : Store) (uid bid : String) (ud : JsObj)
    (now : ℚ) (d : JsObj) (hd : storeGet s (uid, bid) = some d)
    (hok : noUndefFields (updatePayload ud now) = true) :
    applyOp s (.update uid bid ud now) =
      storeSet s (uid, bid) (mergeObj d (updatePayload ud now)) := by
  simp [applyOp, updateBusiness_ok s uid bid ud now d hd hok]

theorem applyOp_update_none (s : Store) (uid bid : String) (ud : JsObj)
    (now : ℚ) (hd : storeGet s (uid, bid) = none) :
    applyOp s (.update uid bid ud now) = s := by
  simp [applyOp, updateBusiness, updateDocChecked, hd, Except.map]

theorem applyOp_update_rejected (s : Store) (uid bid : String) (ud : JsObj)
    (now : ℚ) (d : JsObj) (hd : storeGet s (uid, bid) = some d)
    (hok : noUndefFields (updatePayload ud now) = false) :
    applyOp s (.update uid bid ud now) = s := by
  simp [applyOp, updateBusiness, updateDocChecked, hd, hok, Except.map]

/-! ### One operation preserves the invariant / absorbs "completed" -/

theorem applyOp_preserves (s : Store) (op : DalOp)
    (hs : storeInv s = true) (hg : goodOp s op = true) :
    storeInv (applyOp s op) = true ∧
    ∀ k, storeStatusIs s k "completed" = true →
      storeStatusIs (applyOp s op) k "completed" = true := by
  cases op with
  | create uid id bd now =>
    rw [applyOp_create]
    refine ⟨storeInv_storeSet _ _ _ hs (draftDoc_docInv bd now), ?_⟩
    intro k hk
    by_cases hkey : (uid, id) = k
    · subst hkey
      simp only [goodOp, Option.isNone_iff_eq_none] at hg
      simp [storeStatusIs, hg] at hk
    · rwa [storeStatusIs, storeGet_storeSet_other _ _ _ _ hkey]
  | complete uid bid pd now =>
    cases hd : storeGet s (uid, bid) with
    | none =>
      rw [applyOp_complete_none s uid bid pd now hd]
      exact ⟨hs, fun k hk => hk⟩
    | some d =>
      rw [applyOp_complete_some s uid bid pd now d hd]
      refine ⟨storeInv_storeSet _ _ _ hs (completedDoc_docInv d pd now), ?_⟩
      intro k hk
      by_cases hkey : (uid, bid) = k
      · subst hkey
        simp [storeStatusIs, storeGet_storeSet_self, statusIs,
          completedDoc_status]
      · rwa [storeStatusIs, storeGet_storeSet_other _ _ _ _ hkey]
  | update uid bid ud now =>
    simp only [goodOp, Bool.not_eq_true'] at hg
    cases hd : storeGet s (uid, bid) with
    | none =>
      rw [applyOp_update_none s uid bid ud now hd]
      exact ⟨hs, fun k hk => hk⟩
    | some d =>
      cases hok : noUndefFields (updatePayload ud now) with
      | false =>
        rw [applyOp_update_rejected s uid bid ud now d hd hok]
        exact ⟨hs, fun k hk => hk⟩
      | true =>
        rw [applyOp_update_some s uid bid ud now d hd hok]
        have hno := updatePayload_no_status ud now hg
        refine ⟨storeInv_storeSet _ _ _ hs
          (updatedDoc_docInv _ d (storeInv_get s _ d hs hd) hno), ?_⟩
        intro k hk
        by_cases hkey : (uid, bid) = k
        · subst hkey
          simp only [storeStatusIs, hd] at hk
          simp only [storeStatusIs, storeGet_storeSet_self, statusIs,
            getField_mergeObj_absent _ d "status" hno]
          simp only [statusIs] at hk
          exact hk
        · rwa [storeStatusIs, storeGet_storeSet_other _ _ _ _ hkey]

theorem applyOp_clean (s : Store) (op : DalOp)
    (hs : storeClean s = true) : storeClean (applyOp s op) = true := by
  cases op with
  | create uid id bd now =>
    rw [applyOp_create]
    exact storeClean_storeSet _ _ _ hs (draftDoc_noUndef bd now)
  | complete uid bid pd now =>
    cases hd : storeGet s (uid, bid) with
    | none => rwa [applyOp_complete_none s uid bid pd now hd]
    | some d =>
      rw [applyOp_complete_some s uid bid pd now d hd]
      exact storeClean_storeSet _ _ _ hs
        (noUndefFields_mergeObj _ _ (storeClean_get s _ d hs hd)
          (completeUpdate_noUndef pd now))
  | update uid bid ud now =>
    cases hd : storeGet s (uid, bid) with
    | none => rwa [applyOp_update_none s uid bid ud now hd]
    | some d =>
      cases hok : noUndefFields (updatePayload ud now) with
      | false => rwa [applyOp_update_rejected s uid bid ud now d hd hok]
      | true =>
        rw [applyOp_update_some s uid bid ud now d hd hok]
        exact storeClean_storeSet _ _ _ hs
          (noUndefFields_mergeObj _ _ (storeClean_get s _ d hs hd) hok)

theorem applyOps_preserves : ∀ (ops : List DalOp) (s : Store),
    storeInv s = true → goodTrace s ops = true →
    storeInv (applyOps s ops) = true ∧
    ∀ k, storeStatusIs s k "completed" = true →
      storeStatusIs (applyOps s ops) k "completed" = true := by
  intro ops
  induction ops with
  | nil => exact fun s hs _ => ⟨hs, fun _ hk => hk⟩
  | cons op rest ih =>
    intro s hs hg
    simp only [goodTrace, Bool.and_eq_true] at hg
    have h1 := applyOp_preserves s op hs hg.1
    have h2 := ih (applyOp s op) h1.1 hg.2
    exact ⟨h2.1, fun k hk => h2.2 k (h1.2 k hk)⟩

theorem applyOps_clean : ∀ (ops : List DalOp) (s : Store),
    storeClean s = true → storeClean (applyOps s ops) = true := by
  intro ops
  induction ops with
  | nil => exact fun s hs => hs
  | cons op rest ih => exact fun s hs => ih _ (applyOp_clean s op hs)

/-! ### Trace decomposition and idempotence lemmas -/

theorem applyOps_append : ∀ (a b : List DalOp) (s : Store),
    applyOps s (a ++ b) = applyOps (applyOps s a) b := by
  intro a
  induction a with
  | nil => intro b s; rfl
  | cons op rest ih => intro b s; exact ih b (applyOp s op)

theorem goodTrace_append : ∀ (a b : List DalOp) (s : Store),
    goodTrace s (a ++ b) = true →
    goodTrace s a = true ∧ goodTrace (applyOps s a) b = true := by
  intro a
  induction a with
  | nil => intro b s h; exact ⟨rfl, h⟩
  | cons op rest ih =>
    intro b s h
    simp only [List.cons_append, goodTrace, Bool.and_eq_true] at h ⊢
    have hr := ih b (applyOp s op) h.2
    exact ⟨⟨h.1, hr.1⟩, hr.2⟩

theorem storeSet_storeSet (s : Store) (k : DocKey) (d d' : JsObj) :
    storeSet (storeSet s k d) k d' = storeSet s k d' := by
  induction s with
  | nil => simp [storeSet]
  | cons kd rest ih =>
    obtain ⟨k', d''⟩ := kd
    by_cases h : k' = k
    · simp [storeSet, h]
    · simp [storeSet, h, ih]

theorem mergeObj_completeUpdate_idem (d : JsObj) (pd : PaymentDetails)
    (now : ℚ) :
    mergeObj (mergeObj d (completeUpdate pd now)) (completeUpdate pd now) =
      mergeObj d (completeUpdate pd now) := by
  have h3 : getField (mergeObj d (completeUpdate pd now)) "updatedAt" =
      some (.num now) := by
    rw [mergeObj_completeUpdate]
    exact getField_setField_self _ _ _
  conv_lhs =>
    rw [mergeObj_completeUpdate (mergeObj d (completeUpdate pd now)) pd now]
  rw [setField_getField_eq _ _ _ (completedDoc_pd d pd now),
      setField_getField_eq _ _ _ (completedDoc_status d pd now),
      setField_getField_eq _ _ _ h3]

/-! ### Claim theorems -/

/-- C1.  For every `BusinessDraft` passed to `saveBusinessDraft`, the write
succeeds, and the document read back via `getBusinessDraft` has
`status = "draft"` and contains no occurrence of the absent-value sentinel
at any nesting depth (the stripping runs depth-first through the owner
array and every nested object). -/
theorem createDraft_roundtrip_draft_and_clean (s : Store)
    (uid newId : String) (bd : BusinessData) (now : ℚ) :
    ∃ s', saveBusinessDraft s uid newId bd now = .ok (newId, s') ∧
      getBusinessDraft s' uid newId = .ok (draftDoc bd now) ∧
      getField (draftDoc bd now) "status" = some (.str "draft") ∧
      noUndefFields (draftDoc bd now) = true := by
  refine ⟨storeSet s (uid, newId) (draftDoc bd now),
    saveBusinessDraft_eq s uid newId bd now, ?_,
    draftDoc_status bd now, draftDoc_noUndef bd now⟩
  simp [getBusinessDraft, storeGet_storeSet_self]

/-- C3 (amended).  Along every sequence of data-access operations from the
empty store in which each `saveBusinessDraft` is given a fresh document
identity and no `updateBusiness` payload carries a `status` field: after
any prefix the store invariant holds (every document's status is `"draft"`
or `"completed"`, and `"completed"` documents have `paymentDetails`
present), and a document once `"completed"` stays `"completed"` through
the remaining operations — the status never reverts to `"draft"`. -/
theorem status_monotone_invariant (ops₁ ops₂ : List DalOp) (k : DocKey)
    (hg : goodTrace [] (ops₁ ++ ops₂) = true) :
    storeInv (applyOps [] ops₁) = true ∧
    (∀ d, storeGet (applyOps [] ops₁) k = some d →
      statusIs d "completed" = true → hasKey d "paymentDetails" = true) ∧
    (storeStatusIs (applyOps [] ops₁) k "completed" = true →
      storeStatusIs (applyOps [] (ops₁ ++ ops₂)) k "completed" = true) := by
  obtain ⟨h1, h2⟩ := goodTrace_append ops₁ ops₂ [] hg
  have hp₁ := applyOps_preserves ops₁ [] rfl h1
  have hp₂ := applyOps_preserves ops₂ (applyOps [] ops₁) hp₁.1 h2
  refine ⟨hp₁.1, ?_, ?_⟩
  · intro d hd hst
    have hdi := storeInv_get _ _ _ hp₁.1 hd
    simpa [docInv, hst] using hdi
  · intro hk
    rw [applyOps_append]
    exact hp₂.2 k hk

/-- Witness for C3: a concrete good trace — create a draft, complete it,
then update the company field — keeps the invariant, and the completed
status survives the trailing update. -/
theorem status_monotone_invariant_witness :
    goodTrace []
      ([DalOp.create "u" "b" sampleBusinessData 0,
        DalOp.complete "u" "b" samplePaymentDetails 1] ++
       [DalOp.update "u" "b"
          (JsObj.cons "company" (.str "NewCo") .nil) 2]) = true ∧
    storeInv (applyOps []
      [DalOp.create "u" "b" sampleBusinessData 0,
       DalOp.complete "u" "b" samplePaymentDetails 1]) = true ∧
    storeStatusIs (applyOps []
      ([DalOp.create "u" "b" sampleBusinessData 0,
        DalOp.complete "u" "b" samplePaymentDetails 1] ++
       [DalOp.update "u" "b"
          (JsObj.cons "company" (.str "NewCo") .nil) 2]))
      ("u", "b") "completed" = true := by
  have hg : goodTrace []
      ([DalOp.create "u" "b" sampleBusinessData 0,
        DalOp.complete "u" "b" samplePaymentDetails 1] ++
       [DalOp.update "u" "b"
          (JsObj.cons "company" (.str "NewCo") .nil) 2]) = true := by decide
  have h := status_monotone_invariant
    [DalOp.create "u" "b" sampleBusinessData 0,
     DalOp.complete "u" "b" samplePaymentDetails 1]
    [DalOp.update "u" "b" (JsObj.cons "company" (.str "NewCo") .nil) 2]
    ("u", "b") hg
  exact ⟨hg, h.1, h.2.2 (by decide)⟩

/-- Counterexample for C3 as frozen: `updateBusiness` does not guard the
`status` field, so after create → complete, an update whose payload is
`{status: "draft"}` moves the document from `"completed"` back to
`"draft"` — the reverse transition the claim rules out. -/
theorem status_reversal_counterexample :
    storeStatusIs (applyOps []
      [DalOp.create "u" "b" sampleBusinessData 0,
       DalOp.complete "u" "b" samplePaymentDetails 1])
      ("u", "b") "completed" = true ∧
    storeStatusIs (applyOps []
      [DalOp.create "u" "b" sampleBusinessData 0,
       DalOp.complete "u" "b" samplePaymentDetails 1,
       DalOp.update "u" "b" (JsObj.cons "status" (.str "draft") .nil) 2])
      ("u", "b") "draft" = true ∧
    storeStatusIs (applyOps []
      [DalOp.create "u" "b" sampleBusinessData 0,
       DalOp.complete "u" "b" samplePaymentDetails 1,
       DalOp.update "u" "b" (JsObj.cons "status" (.str "draft") .nil) 2])
      ("u", "b") "completed" = false := by
  refine ⟨by decide, by decide, by decide⟩

/-- C4 (amended).  When the target document exists,
`completeBusinessRegistration` called twice with the same payment details
and the same observed clock instant is idempotent: the second call
overwrites the stored `paymentDetails` and `status` with content equal to
the first call's write (the resulting store is unchanged), and the status
is `"completed"` after both calls.  (With a later clock instant the stored
`createdAt`/`updatedAt` stamps differ — see the counterexample.) -/
theorem completeRegistration_idem (s : Store) (uid bid : String)
    (pd : PaymentDetails) (now : ℚ) (d : JsObj)
    (hd : storeGet s (uid, bid) = some d) :
    ∃ s₁, completeBusinessRegistration s uid bid pd now = .ok (bid, s₁) ∧
      completeBusinessRegistration s₁ uid bid pd now = .ok (bid, s₁) ∧
      storeStatusIs s₁ (uid, bid) "completed" = true := by
  refine ⟨storeSet s (uid, bid) (mergeObj d (completeUpdate pd now)),
    completeBusinessRegistration_ok s uid bid pd now d hd, ?_, ?_⟩
  · rw [completeBusinessRegistration_ok _ uid bid pd now
      (mergeObj d (completeUpdate pd now)) (storeGet_storeSet_self _ _ _),
      mergeObj_completeUpdate_idem, storeSet_storeSet]
  · simp [storeStatusIs, storeGet_storeSet_self, statusIs,
      completedDoc_status]

/-- Witness for C4: completing a concrete existing draft twice at the same
instant yields the same store both times, with status `"completed"`. -/
theorem completeRegistration_idem_witness :
    ∃ s₁, completeBusinessRegistration
        [(("u", "b"), JsObj.cons "status" (.str "draft") .nil)]
        "u" "b" samplePaymentDetails 5 = .ok ("b", s₁) ∧
      completeBusinessRegistration s₁ "u" "b" samplePaymentDetails 5 =
        .ok ("b", s₁) ∧
      storeStatusIs s₁ ("u", "b") "completed" = true :=
  completeRegistration_idem
    [(("u", "b"), JsObj.cons "status" (.str "draft") .nil)]
    "u" "b" samplePaymentDetails 5 (JsObj.cons "status" (.str "draft") .nil)
    rfl

/-- Counterexample for C4 as frozen: the payment record embeds a
client-observed `createdAt` timestamp, so a second call at a later instant
overwrites `paymentDetails` with content different from what the first
call wrote: the stored `createdAt` stamp moves from 0 to 1. -/
theorem completeRegistration_second_call_differs :
    jsGet (jsGet (.obj ((storeGet
        (applyOp [(("u", "b"), JsObj.cons "status" (.str "draft") .nil)]
          (.complete "u" "b" samplePaymentDetails 0))
        ("u", "b")).getD .nil)) "paymentDetails") "createdAt" = .num 0 ∧
    jsGet (jsGet (.obj ((storeGet
        (applyOp (applyOp
            [(("u", "b"), JsObj.cons "status" (.str "draft") .nil)]
            (.complete "u" "b" samplePaymentDetails 0))
          (.complete "u" "b" samplePaymentDetails 1))
        ("u", "b")).getD .nil)) "paymentDetails") "createdAt" = .num 1 ∧
    (0 : ℚ) ≠ 1 := by
  refine ⟨rfl, rfl, by norm_num⟩

/-- C8.  Over every store reachable by data-access operations from the
empty store, `getBusinessDraft` fails with the `"Business draft not
found"` condition exactly when the requested document does not exist, and
otherwise returns the document body, which is free of the absent-value
sentinel at every nesting depth (writes are sanitized and the store
rejects the sentinel outright, so read-back is always sanitized). -/
theorem getDraft_not_found_or_sanitized (ops : List DalOp)
    (uid bid : String) :
    (storeGet (applyOps [] ops) (uid, bid) = none →
      getBusinessDraft (applyOps [] ops) uid bid =
        .error "Business draft not found") ∧
    (∀ d, storeGet (applyOps [] ops) (uid, bid) = some d →
      getBusinessDraft (applyOps [] ops) uid bid = .ok d ∧
      noUndefFields d = true) := by
  constructor
  · intro h
    simp [getBusinessDraft, h]
  · intro d hd
    refine ⟨by simp [getBusinessDraft, hd], ?_⟩
    exact storeClean_get _ _ _ (applyOps_clean ops [] rfl) hd

/-- Witness for C8: after creating one draft, reading it back succeeds
with a sentinel-free body, and reading a missing document fails with the
"not found" condition. -/
theorem getDraft_not_found_or_sanitized_witness :
    (getBusinessDraft
        (applyOps [] [DalOp.create "u" "b" sampleBusinessData 0]) "u" "b" =
      .ok (draftDoc sampleBusinessData 0) ∧
      noUndefFields (draftDoc sampleBusinessData 0) = true) ∧
    getBusinessDraft
        (applyOps [] [DalOp.create "u" "b" sampleBusinessData 0]) "u" "x" =
      .error "Business draft not found" := by
  refine ⟨(getDraft_not_found_or_sanitized
      [DalOp.create "u" "b" sampleBusinessData 0] "u" "b").2
      (draftDoc sampleBusinessData 0) rfl, ?_⟩
  exact (getDraft_not_found_or_sanitized
      [DalOp.create "u" "b" sampleBusinessData 0] "u" "x").1 rfl

/-! ### Round-trip of the persisted step string -/

theorem natDigitsRev_eq_digits : ∀ (fuel n : ℕ), n ≤ fuel →
    natDigitsRev fuel n = Nat.digits 10 n := by
  intro fuel
  induction fuel with
  | zero =>
    intro n hn
    interval_cases n
    simp [natDigitsRev]
  | succ f ih =>
    intro n hn
    cases n with
    | zero => simp [natDigitsRev]
    | succ m =>
      have hdiv : (m + 1) / 10 < m + 1 := Nat.div_lt_self (Nat.succ_pos m)
        (by norm_num)
      rw [natDigitsRev, ih ((m + 1) / 10) (by omega),
        Nat.digits_def' (by norm_num : (1 : ℕ) < 10) (Nat.succ_pos m)]

theorem charToDigit_digitToChar (d : ℕ) (h : d < 10) :
    charToDigit (digitToChar d) = d := by
  interval_cases d <;> decide

theorem isDigitChar_digitToChar (d : ℕ) (h : d < 10) :
    isDigitChar (digitToChar d) = true := by
  interval_cases d <;> decide

theorem foldr_eq_ofDigits : ∀ l : List ℕ,
    l.foldr (fun d a => 10 * a + d) 0 = Nat.ofDigits 10 l
  | [] => rfl
  | d :: t => by
    rw [List.foldr_cons, Nat.ofDigits_cons, foldr_eq_ofDigits t]
    omega

theorem jsParseInt_mk (c : Char) (t : List Char)
    (h : (c :: t).all isDigitChar = true) :
    jsParseInt (String.mk (c :: t)) =
      some ((c :: t).foldl (fun a ch => 10 * a + charToDigit ch) 0) := by
  unfold jsParseInt
  simp [String.toList, h]

theorem jsParseInt_jsToString (n : ℕ) : jsParseInt (jsToString n) = some n := by
  by_cases h0 : n = 0
  · subst h0
    decide
  · have hd : natDigitsRev n n = Nat.digits 10 n :=
      natDigitsRev_eq_digits n n le_rfl
    have hmem : ∀ d ∈ Nat.digits 10 n, d < 10 := fun d hd2 =>
      Nat.digits_lt_base (by norm_num) hd2
    have hne : Nat.digits 10 n ≠ [] := Nat.digits_ne_nil_iff_ne_zero.mpr h0
    rw [jsToString, if_neg h0, hd]
    cases hl : (Nat.digits 10 n).reverse.map digitToChar with
    | nil =>
      exfalso
      apply hne
      have hrev : (Nat.digits 10 n).reverse = [] := by
        cases hrev : (Nat.digits 10 n).reverse with
        | nil => rfl
        | cons a b => rw [hrev] at hl; simp at hl
      simpa using hrev
    | cons c t =>
      have hall : (c :: t).all isDigitChar = true := by
        rw [← hl, List.all_eq_true]
        intro x hx
        obtain ⟨d, hd2, rfl⟩ := List.mem_map.mp hx
        exact isDigitChar_digitToChar d (hmem d (List.mem_reverse.mp hd2))
      rw [jsParseInt_mk c t hall, ← hl]
      congr 1
      rw [List.foldl_map,
        List.foldl_ext (fun (a d : ℕ) => 10 * a + charToDigit (digitToChar d))
          (fun a d => 10 * a + d) 0
          (fun a d hdm => by
            show 10 * a + charToDigit (digitToChar d) = 10 * a + d
            rw [charToDigit_digitToChar d (hmem d (List.mem_reverse.mp hdm))]),
        List.foldl_reverse, foldr_eq_ofDigits]
      exact Nat.ofDigits_digits 10 n

/-! ### Lossless JSON round trip on plain values -/

mutual

theorem jsonRoundtrip_plain : ∀ v : JsValue, isPlain v = true →
    jsonRoundtrip v = v
  | .undef, h => by simp [isPlain] at h
  | .null, _ => rfl
  | .bool _, _ => rfl
  | .num _, _ => rfl
  | .str _, _ => rfl
  | .file _, h => by simp [isPlain] at h
  | .arr xs, h => by
    simp only [jsonRoundtrip]
    rw [jsonRoundtrip_plain_arr xs (by simpa [isPlain] using h)]
  | .obj fs, h => by
    simp only [jsonRoundtrip]
    rw [jsonRoundtrip_plain_fields fs (by simpa [isPlain] using h)]

theorem jsonRoundtrip_plain_arr : ∀ xs : JsArr, isPlainArr xs = true →
    jsonRoundtripArr xs = xs
  | .nil, _ => rfl
  | .cons v rest, h => by
    simp only [isPlainArr, Bool.and_eq_true] at h
    cases v with
    | undef => simp [isPlain] at h
    | _ =>
      simp only [jsonRoundtripArr]
      rw [jsonRoundtrip_plain _ h.1, jsonRoundtrip_plain_arr rest h.2]

theorem jsonRoundtrip_plain_fields : ∀ fs : JsObj, isPlainFields fs = true →
    jsonRoundtripFields fs = fs
  | .nil, _ => rfl
  | .cons k v rest, h => by
    simp only [isPlainFields, Bool.and_eq_true] at h
    cases v with
    | undef => simp [isPlain] at h
    | _ =>
      simp only [jsonRoundtripFields]
      rw [jsonRoundtrip_plain _ h.1, jsonRoundtrip_plain_fields rest h.2]

end

/-- C6.  Draft Store round trip: for every step number and every plain
form-data value (no in-memory file handles and no absent-value sentinels,
which JSON serialization does not preserve), saving and loading returns
exactly the step and the data. -/
theorem draftStore_roundtrip (s : ℕ) (D : JsValue) (h : isPlain D = true) :
    loadSession (saveSession s D) = (some s, some D) := by
  simp [loadSession, saveSession, jsParseInt_jsToString s,
    jsonRoundtrip_plain D h]

/-- Witness for C6: step 4 with a concrete country object round-trips. -/
theorem draftStore_roundtrip_witness :
    isPlain (.obj (JsObj.cons "country"
      (.obj (JsObj.cons "name" (.str "France") .nil)) .nil)) = true ∧
    loadSession (saveSession 4 (.obj (JsObj.cons "country"
        (.obj (JsObj.cons "name" (.str "France") .nil)) .nil))) =
      (some 4, some (.obj (JsObj.cons "country"
        (.obj (JsObj.cons "name" (.str "France") .nil)) .nil))) :=
  ⟨by decide, draftStore_roundtrip 4 _ (by decide)⟩

/-- C2 (amended).  Step transitions: for N in 1..5, `handleNext` merges
only the step's designated field, persists both the merged draft and the
incremented step to sessionStorage (step 4 requires an array payload), and
yields N+1.  At step 6 the Review step's `onNext` yields 7 but persists
neither entry.  At step 7 `handleNext` merges the payload's fields
wholesale (`Object.assign`), persists both entries, and yields 8.
`handleBack` from step 1 signals exit-wizard without decrementing; from N
in 2..8 it yields N-1 and persists it. -/
theorem stepController_transitions (st : WizardState) (sd : JsValue) :
    (∀ N, st.currentStep = N → 1 ≤ N → N ≤ 5 →
      (N = 4 → ∃ xs, sd = .arr xs) →
      ∃ st', handleNext st sd = some st' ∧
        st'.currentStep = N + 1 ∧
        st'.storedStep = some (jsToString (N + 1)) ∧
        st'.storedData = some (jsonRoundtrip (.obj st'.formData)) ∧
        hasKey st'.formData (stepField N) = true ∧
        ∀ k, k ≠ stepField N →
          getField st'.formData k = getField st.formData k) ∧
    (st.currentStep = 6 →
      (reviewOnNext st).currentStep = 7 ∧
      (reviewOnNext st).storedStep = st.storedStep ∧
      (reviewOnNext st).storedData = st.storedData) ∧
    (st.currentStep = 7 →
      ∃ st', handleNext st sd = some st' ∧ st'.currentStep = 8 ∧
        st'.storedStep = some (jsToString 8) ∧
        st'.storedData = some (jsonRoundtrip (.obj st'.formData)) ∧
        st'.formData = objectAssign st.formData sd) ∧
    (st.currentStep = 1 → handleBack st = { st with exited := true }) ∧
    (∀ N, st.currentStep = N → 2 ≤ N → N ≤ 8 →
      handleBack st =
        { st with
          currentStep := N - 1,
          storedStep := some (jsToString (N - 1)) }) := by
  refine ⟨?_, ?_, ?_, ?_, ?_⟩
  · intro N hN hlo hhi h4
    interval_cases N
    · refine ⟨_, by simp only [handleNext, hN, mergeStep, Option.map]; rfl,
        rfl, rfl, rfl, hasKey_setField_self _ _ _,
        fun k hk => getField_setField_other _ _ _ _ (Ne.symm hk)⟩
    · refine ⟨_, by simp only [handleNext, hN, mergeStep, Option.map]; rfl,
        rfl, rfl, rfl, hasKey_setField_self _ _ _,
        fun k hk => getField_setField_other _ _ _ _ (Ne.symm hk)⟩
    · refine ⟨_, by simp only [handleNext, hN, mergeStep, Option.map]; rfl,
        rfl, rfl, rfl, hasKey_setField_self _ _ _,
        fun k hk => getField_setField_other _ _ _ _ (Ne.symm hk)⟩
    · obtain ⟨xs, rfl⟩ := h4 rfl
      refine ⟨_, by simp only [handleNext, hN, mergeStep, Option.map]; rfl,
        rfl, rfl, rfl, hasKey_setField_self _ _ _,
        fun k hk => getField_setField_other _ _ _ _ (Ne.symm hk)⟩
    · refine ⟨_, by simp only [handleNext, hN, mergeStep, Option.map]; rfl,
        rfl, rfl, rfl, hasKey_setField_self _ _ _,
        fun k hk => getField_setField_other _ _ _ _ (Ne.symm hk)⟩
  · intro _
    exact ⟨rfl, rfl, rfl⟩
  · intro h7
    have hm : mergeStep 7 st.formData sd = some (objectAssign st.formData sd) :=
      rfl
    refine ⟨_, by simp only [handleNext, h7, hm, Option.map]; rfl,
      rfl, rfl, rfl, rfl⟩
  · intro h1
    simp [handleBack, h1]
  · intro N hN hlo hhi
    have hne : N ≠ 1 := by omega
    simp only [handleBack, hN, if_neg hne]

/-- Witness for C2: advancing from step 3 with concrete company data
merges only the company field, persists both entries, and yields step 4;
retreating from step 1 signals exit-wizard. -/
theorem stepController_transitions_witness :
    (∃ st', handleNext (WizardState.mk 3 .nil none none false)
        (.obj (objOfList [("name", .str "Acme"), ("type", .str "LLC"),
          ("industry", .str "Tech")])) = some st' ∧
      st'.currentStep = 3 + 1 ∧
      st'.storedStep = some (jsToString (3 + 1)) ∧
      st'.storedData = some (jsonRoundtrip (.obj st'.formData)) ∧
      hasKey st'.formData (stepField 3) = true ∧
      ∀ k, k ≠ stepField 3 →
        getField st'.formData k =
          getField (WizardState.mk 3 .nil none none false).formData k) ∧
    handleBack (WizardState.mk 1 .nil none none false) =
      { WizardState.mk 1 .nil none none false with exited := true } :=
  ⟨(stepController_transitions (WizardState.mk 3 .nil none none false)
      (.obj (objOfList [("name", .str "Acme"), ("type", .str "LLC"),
        ("industry", .str "Tech")]))).1 3 rfl (by decide) (by decide)
      (fun h => absurd h (by decide)),
   (stepController_transitions (WizardState.mk 1 .nil none none false)
      (.obj .nil)).2.2.2.1 rfl⟩

/-- Counterexample for C2 as frozen: at step 6 the Review step's `onNext`
is `() => setCurrentStep(7)`; it yields step 7 but writes neither
sessionStorage entry, so the persisted step remains `"6"` while the claim
requires the new step number `"7"` to be persisted. -/
theorem review_onNext_no_persist_counterexample :
    (reviewOnNext (WizardState.mk 6 .nil (some "6") none false)).currentStep
      = 7 ∧
    (reviewOnNext (WizardState.mk 6 .nil (some "6") none false)).storedStep
      = some "6" ∧
    jsToString 7 = "7" ∧ ("6" : String) ≠ "7" :=
  ⟨rfl, rfl, rfl, by decide⟩

/-- C7 (amended).  `handleEdit` to target step t followed by `handleNext`
resumes at step t+1, and for t in 1..5 every draft field other than the
one merged at step t keeps its value from before the edit.  (For t ≥ 6
the merge is a wholesale `Object.assign` of the payload, so fields are
preserved only when the payload omits them — see the counterexample.) -/
theorem edit_then_advance (st : WizardState) (t : ℕ) (sd : JsValue)
    (st2 : WizardState) (h : handleNext (handleEdit st t) sd = some st2) :
    st2.currentStep = t + 1 ∧
    (1 ≤ t → t ≤ 5 → ∀ k, k ≠ stepField t →
      getField st2.formData k = getField st.formData k) := by
  simp only [handleNext, handleEdit] at h
  cases hm : mergeStep t st.formData sd with
  | none => rw [hm] at h; simp at h
  | some nd =>
    rw [hm] at h
    simp only [Option.map, Option.some.injEq] at h
    subst h
    refine ⟨rfl, ?_⟩
    intro hlo hhi k hk
    interval_cases t
    · simp only [mergeStep, Option.some.injEq] at hm
      rw [← hm]
      exact getField_setField_other _ _ _ _ (Ne.symm hk)
    · simp only [mergeStep, Option.some.injEq] at hm
      rw [← hm]
      exact getField_setField_other _ _ _ _ (Ne.symm hk)
    · simp only [mergeStep, Option.some.injEq] at hm
      rw [← hm]
      exact getField_setField_other _ _ _ _ (Ne.symm hk)
    · cases sd with
      | arr xs =>
        simp only [mergeStep, Option.some.injEq] at hm
        rw [← hm]
        exact getField_setField_other _ _ _ _ (Ne.symm hk)
      | _ => simp [mergeStep] at hm
    · simp only [mergeStep, Option.some.injEq] at hm
      rw [← hm]
      exact getField_setField_other _ _ _ _ (Ne.symm hk)

/-- Witness for C7: editing back to step 2 and advancing with a concrete
package payload yields step 3 and leaves the previously entered country
untouched. -/
theorem edit_then_advance_witness :
    (∃ st2, handleNext (handleEdit (WizardState.mk 6
        (JsObj.cons "country" (.obj (JsObj.cons "name" (.str "France") .nil))
          .nil) (some "6") none false) 2)
        (.obj (objOfList [("name", .str "Gold"), ("price", .num 99)])) =
        some st2 ∧
      st2.currentStep = 2 + 1 ∧
      getField st2.formData "country" =
        some (.obj (JsObj.cons "name" (.str "France") .nil))) := by
  have h : handleNext (handleEdit (WizardState.mk 6
      (JsObj.cons "country" (.obj (JsObj.cons "name" (.str "France") .nil))
        .nil) (some "6") none false) 2)
      (.obj (objOfList [("name", .str "Gold"), ("price", .num 99)])) =
      some (WizardState.mk 3
        (JsObj.cons "country" (.obj (JsObj.cons "name" (.str "France") .nil))
          (JsObj.cons "package" (.obj (objOfList [("name", .str "Gold"),
            ("price", .num 99)])) .nil))
        (some "3")
        (some (jsonRoundtrip (.obj (JsObj.cons "country"
          (.obj (JsObj.cons "name" (.str "France") .nil))
          (JsObj.cons "package" (.obj (objOfList [("name", .str "Gold"),
            ("price", .num 99)])) .nil)))))
        false) := rfl
  have hres := edit_then_advance _ 2 _ _ h
  exact ⟨_, h, hres.1, by
    rw [hres.2 (by decide) (by decide) "country" (by decide)]
    rfl⟩

/-- Counterexample for C7 as frozen: with target step 6 the merge is
`Object.assign(newData, stepData)`, so a payload carrying a `country`
field overwrites the previously entered country — a field that step 6's
contract does not merge. -/
theorem edit_review_overwrite_counterexample :
    (∃ st2, handleNext (handleEdit (WizardState.mk 7
        (JsObj.cons "country" (.str "orig") .nil) none none false) 6)
        (.obj (JsObj.cons "country" (.str "changed") .nil)) = some st2 ∧
      getField st2.formData "country" = some (.str "changed")) ∧
    getField (JsObj.cons "country" (.str "orig") .nil) "country" =
      some (.str "orig") ∧
    ("changed" : String) ≠ "orig" :=
  ⟨⟨_, rfl, rfl⟩, rfl, by decide⟩

/-- C5.  The checkout endpoint builds a single line item priced at the
request amount times 100 in minor units with currency fixed to "usd"
(amount 150.00 yields `unit_amount` 15000), and on any provider failure
responds with HTTP 500 and body exactly
`{error: "Error creating checkout session"}` — a constant independent of
the provider's error detail, with no `sessionId` field. -/
theorem checkout_minor_units_and_opaque_error (baseUrl : String)
    (req : CheckoutRequest) (provider : SessionParams → ProviderResult)
    (e : String) :
    (checkoutSessionParams baseUrl req).line_items =
      [⟨⟨"usd", "Business Registration", req.amount * 100⟩, 1⟩] ∧
    ((checkoutSessionParams baseUrl
        ⟨150, req.businessId, req.userId⟩).line_items.map
      (fun li => li.price_data.unit_amount) = [15000]) ∧
    (provider (checkoutSessionParams baseUrl req) = .err e →
      POST baseUrl req provider =
        ⟨500, JsObj.cons "error"
          (.str "Error creating checkout session") .nil⟩ ∧
      hasKey (POST baseUrl req provider).body "sessionId" = false) := by
  refine ⟨rfl, by norm_num [checkoutSessionParams], ?_⟩
  intro h
  have hp : POST baseUrl req provider =
      ⟨500, JsObj.cons "error"
        (.str "Error creating checkout session") .nil⟩ := by
    simp [POST, h]
  exact ⟨hp, by rw [hp]; decide⟩

/-- Witness for C5: a provider that fails with a concrete internal detail
yields the fixed opaque 500 body, and amount 150 yields a 15000
minor-unit line item. -/
theorem checkout_minor_units_and_opaque_error_witness :
    ((checkoutSessionParams "https://app.example"
        ⟨150, "b1", "u1"⟩).line_items.map
      (fun li => li.price_data.unit_amount) = [15000]) ∧
    POST "https://app.example" ⟨150, "b1", "u1"⟩
        (fun _ => .err "card_declined: internal trace 42") =
      ⟨500, JsObj.cons "error"
        (.str "Error creating checkout session") .nil⟩ ∧
    hasKey (POST "https://app.example" ⟨150, "b1", "u1"⟩
        (fun _ => .err "card_declined: internal trace 42")).body
      "sessionId" = false := by
  have h := checkout_minor_units_and_opaque_error "https://app.example"
    ⟨150, "b1", "u1"⟩ (fun _ => .err "card_declined: internal trace 42")
    "card_declined: internal trace 42"
  have h3 := h.2.2 rfl
  exact ⟨h.2.1, h3.1, h3.2⟩

/-! ### Percent-coding lemmas -/

theorem hexVal_hexDigitChar (n : ℕ) (h : n < 16) :
    hexVal (hexDigitChar n) = some n := by
  interval_cases n <;> decide

theorem percentDecodeList_cons_ne (c : Char) (rest : List Char)
    (hcp : c ≠ '%') :
    percentDecodeList (c :: rest) =
      (percentDecodeList rest).map (fun l => c :: l) := by
  rw [percentDecodeList.eq_def]
  simp [hcp]

theorem percentDecodeList_escape (a b : Char) (x y : ℕ) (rest : List Char)
    (ha : hexVal a = some x) (hb : hexVal b = some y) :
    percentDecodeList ('%' :: a :: b :: rest) =
      (percentDecodeList rest).map (fun l => Char.ofNat (16 * x + y) :: l) := by
  rw [percentDecodeList.eq_def]
  simp [ha, hb]

theorem percentDecodeList_encodeChar (c : Char) (rest : List Char)
    (hc : c.toNat < 256) :
    percentDecodeList (percentEncodeChar c ++ rest) =
      (percentDecodeList rest).map (fun l => c :: l) := by
  by_cases hu : isUnreservedChar c = true
  · rw [percentEncodeChar, if_pos hu]
    have hcp : c ≠ '%' := by
      intro h
      rw [h] at hu
      exact absurd hu (by decide)
    rw [List.singleton_append, percentDecodeList_cons_ne c rest hcp]
  · rw [percentEncodeChar, if_neg hu]
    have h1 : hexVal (hexDigitChar (c.toNat / 16 % 16)) =
        some (c.toNat / 16 % 16) :=
      hexVal_hexDigitChar _ (Nat.mod_lt _ (by norm_num))
    have h2 : hexVal (hexDigitChar (c.toNat % 16)) = some (c.toNat % 16) :=
      hexVal_hexDigitChar _ (Nat.mod_lt _ (by norm_num))
    have harith : 16 * (c.toNat / 16 % 16) + c.toNat % 16 = c.toNat := by
      omega
    have hshape : (['%', hexDigitChar (c.toNat / 16 % 16),
        hexDigitChar (c.toNat % 16)] : List Char) ++ rest =
        '%' :: hexDigitChar (c.toNat / 16 % 16) ::
          hexDigitChar (c.toNat % 16) :: rest := rfl
    rw [hshape, percentDecodeList_escape _ _ _ _ rest h1 h2, harith,
      Char.ofNat_toNat]

theorem percentDecodeList_noPercent_append : ∀ (s tail : List Char),
    noPercent s = true →
    percentDecodeList (s ++ tail) =
      (percentDecodeList tail).map (fun l => s ++ l)
  | [], tail, _ => by cases h : percentDecodeList tail <;> simp [h]
  | c :: s', tail, h => by
    simp only [noPercent, List.all_cons, Bool.and_eq_true] at h
    have hcp : c ≠ '%' := by
      intro hq
      rw [hq] at h
      simpa using h.1
    rw [List.cons_append, percentDecodeList_cons_ne c _ hcp,
      percentDecodeList_noPercent_append s' tail
        (by simpa [noPercent] using h.2)]
    cases percentDecodeList tail <;> simp

theorem percentDecodeList_encode_append : ∀ (p tail : List Char),
    (∀ c ∈ p, c.toNat < 256) →
    percentDecodeList (percentEncode p ++ tail) =
      (percentDecodeList tail).map (fun l => p ++ l)
  | [], tail, _ => by
    cases h : percentDecodeList tail <;> simp [percentEncode, h]
  | c :: p', tail, h => by
    rw [percentEncode, List.append_assoc,
      percentDecodeList_encodeChar c _ (h c (by simp)),
      percentDecodeList_encode_append p' tail
        (fun x hx => h x (by simp [hx]))]
    cases percentDecodeList tail <;> simp

theorem percentDecodeList_noPercent_id (s : List Char)
    (h : noPercent s = true) : percentDecodeList s = some s := by
  have hh := percentDecodeList_noPercent_append s [] h
  simpa [percentDecodeList] using hh

/-! ### Split lemmas -/

theorem isPrefixL_append_self : ∀ (sep x : List Char),
    isPrefixL sep (sep ++ x) = true
  | [], _ => rfl
  | a :: as, x => by simp [isPrefixL, isPrefixL_append_self as x]

theorem isPrefixL_append_of_le : ∀ (sep x y : List Char),
    sep.length ≤ x.length → isPrefixL sep (x ++ y) = isPrefixL sep x
  | [], _, _, _ => rfl
  | a :: as, [], y, h => by simp at h
  | a :: as, b :: bs, y, h => by
    rw [List.cons_append]
    show (a == b && isPrefixL as (bs ++ y)) = (a == b && isPrefixL as bs)
    rw [isPrefixL_append_of_le as bs y (by simpa using h)]

theorem splitGoFuel_succ_cons (sep : List Char) (f : ℕ) (c : Char)
    (r : List Char) :
    splitGoFuel sep (f + 1) (c :: r) =
      if isPrefixL sep (c :: r) then
        [] :: splitGoFuel sep f (List.drop (sep.length - 1) r)
      else
        match splitGoFuel sep f r with
        | fh :: tr => (c :: fh) :: tr
        | [] => [[c]] := rfl

theorem splitGoFuel_fuel_irrel : ∀ (sep : List Char) (f₁ f₂ : ℕ)
    (s : List Char), s.length ≤ f₁ → s.length ≤ f₂ →
    splitGoFuel sep f₁ s = splitGoFuel sep f₂ s := by
  intro sep f₁
  induction f₁ with
  | zero =>
    intro f₂ s h1 _
    cases s with
    | nil => cases f₂ <;> rfl
    | cons c r => simp at h1
  | succ f ih =>
    intro f₂ s h1 h2
    cases s with
    | nil => cases f₂ <;> rfl
    | cons c r =>
      have hr : r.length ≤ f := by simpa using h1
      cases f₂ with
      | zero => simp at h2
      | succ f₂' =>
        have hr2 : r.length ≤ f₂' := by simpa using h2
        rw [splitGoFuel_succ_cons, splitGoFuel_succ_cons]
        by_cases hp : isPrefixL sep (c :: r) = true
        · rw [if_pos hp, if_pos hp,
            ih f₂' (List.drop (sep.length - 1) r)
              (by simp only [List.length_drop]; omega)
              (by simp only [List.length_drop]; omega)]
        · rw [if_neg hp, if_neg hp, ih f₂' r hr hr2]

theorem splitGoFuel_no_occur : ∀ (sep : List Char) (fuel : ℕ)
    (s : List Char), s.length ≤ fuel →
    (∀ i < s.length, isPrefixL sep (List.drop i s) = false) →
    splitGoFuel sep fuel s = [s] := by
  intro sep fuel
  induction fuel with
  | zero =>
    intro s h1 _
    cases s with
    | nil => rfl
    | cons c r => simp at h1
  | succ f ih =>
    intro s h1 h2
    cases s with
    | nil => rfl
    | cons c r =>
      have hp : ¬ isPrefixL sep (c :: r) = true := by
        have hq := h2 0 (by simp)
        simp only [List.drop_zero] at hq
        simp [hq]
      rw [splitGoFuel_succ_cons, if_neg hp,
        ih r (by simpa using h1) (fun i hi => by
          have hq := h2 (i + 1) (by simpa using Nat.succ_lt_succ hi)
          simpa [List.drop_succ_cons] using hq)]

theorem splitGoFuel_cut : ∀ (sep a b : List Char) (fuel : ℕ),
    sep ≠ [] → (a ++ sep ++ b).length ≤ fuel →
    (∀ i < a.length, isPrefixL sep (List.drop i (a ++ sep)) = false) →
    splitGoFuel sep fuel (a ++ sep ++ b) =
      a :: splitGoFuel sep b.length b := by
  intro sep a
  induction a with
  | nil =>
    intro b fuel hsep hlen h
    cases sep with
    | nil => exact absurd rfl hsep
    | cons s0 st =>
      have hsh : ([] : List Char) ++ (s0 :: st) ++ b = s0 :: (st ++ b) := by
        rw [List.nil_append, List.cons_append]
      rw [hsh] at hlen ⊢
      cases fuel with
      | zero => simp at hlen
      | succ f =>
        have hpre : isPrefixL (s0 :: st) (s0 :: (st ++ b)) = true := by
          have hq := isPrefixL_append_self (s0 :: st) b
          rwa [List.cons_append] at hq
        rw [splitGoFuel_succ_cons, if_pos hpre]
        have hdrop : List.drop ((s0 :: st).length - 1) (st ++ b) = b := by
          rw [show (s0 :: st).length - 1 = st.length from by
            simp [List.length_cons]]
          exact List.drop_left st b
        rw [hdrop, splitGoFuel_fuel_irrel (s0 :: st) f b.length b
          (by simp only [List.length_cons, List.length_append] at hlen
              omega)
          le_rfl]
  | cons c a' ih =>
    intro b fuel hsep hlen h
    have hsh : (c :: a') ++ sep ++ b = c :: (a' ++ sep ++ b) := by
      rw [List.cons_append, List.cons_append]
    rw [hsh] at hlen ⊢
    cases fuel with
    | zero => simp at hlen
    | succ f =>
      have hneg : ¬ isPrefixL sep (c :: (a' ++ sep ++ b)) = true := by
        have h0 := h 0 (by simp)
        simp only [List.drop_zero] at h0
        have hle : isPrefixL sep (((c :: a') ++ sep) ++ b) =
            isPrefixL sep ((c :: a') ++ sep) :=
          isPrefixL_append_of_le sep ((c :: a') ++ sep) b
            (by simp only [List.length_append, List.length_cons]; omega)
        have heq : c :: (a' ++ sep ++ b) = ((c :: a') ++ sep) ++ b := by
          rw [List.cons_append, List.cons_append, List.append_assoc]
        rw [heq, hle, h0]
        simp
      rw [splitGoFuel_succ_cons, if_neg hneg,
        ih b f hsep
          (by simp only [List.length_cons] at hlen; omega)
          (fun i hi => by
            have hq := h (i + 1) (by simpa using Nat.succ_lt_succ hi)
            rw [show List.drop (i + 1) ((c :: a') ++ sep) =
              List.drop i (a' ++ sep) from by
                rw [List.cons_append, List.drop_succ_cons]] at hq
            exact hq)]

theorem jsSplit_cut (sep a b : List Char) (hsep : sep ≠ [])
    (h : ∀ i < a.length, isPrefixL sep (List.drop i (a ++ sep)) = false) :
    jsSplit sep (a ++ sep ++ b) = a :: jsSplit sep b := by
  unfold jsSplit
  rw [if_neg (by simpa [List.isEmpty_iff] using hsep),
      if_neg (by simpa [List.isEmpty_iff] using hsep)]
  exact splitGoFuel_cut sep a b _ hsep le_rfl h

theorem jsSplit_no_occur (sep s : List Char) (hsep : sep ≠ [])
    (h : ∀ i < s.length, isPrefixL sep (List.drop i s) = false) :
    jsSplit sep s = [s] := by
  unfold jsSplit
  rw [if_neg (by simpa [List.isEmpty_iff] using hsep)]
  exact splitGoFuel_no_occur sep s.length s le_rfl h

/-- Unfolding of `getStoragePathFromUrl` once the decode is known. -/
theorem getStoragePathFromUrl_decode_eq (url : String) (decoded : List Char)
    (hdec : percentDecodeList url.toList = some decoded) :
    getStoragePathFromUrl url =
      match jsSplit oSep decoded with
      | _ :: second :: _ => some (String.mk ((jsSplit qSep second).headD []))
      | _ => none := by
  unfold getStoragePathFromUrl
  rw [hdec]

/-- C9 (amended).  `getStoragePathFromUrl` inverts the download-URL
encoding for the paths the encoding is injective on: for every path p of
code points below 128 that contains no `'?'` and no `'/o/'` (hypotheses
`hqp`, `hob`), embedded percent-encoded after a `'/o/'` segment whose
prefix introduces no earlier `'/o/'` occurrence (`hopre`) and before a
query string, the function returns exactly p.  (As frozen — for every
path — the claim fails: a `'?'` inside the path percent-decodes back and
the split at `'?'` truncates there; see the counterexample.) -/
theorem getStoragePathFromUrl_inverts (pre p qs : List Char)
    (hpre : noPercent pre = true) (hqs : noPercent qs = true)
    (hp : ∀ c ∈ p, c.toNat < 128)
    (hopre : ∀ i < pre.length,
      isPrefixL oSep (List.drop i (pre ++ oSep)) = false)
    (hob : ∀ i < (p ++ '?' :: qs).length,
      isPrefixL oSep (List.drop i (p ++ '?' :: qs)) = false)
    (hqp : ∀ i < p.length,
      isPrefixL qSep (List.drop i (p ++ qSep)) = false) :
    getStoragePathFromUrl
        (String.mk (pre ++ oSep ++ percentEncode p ++ '?' :: qs)) =
      some (String.mk p) := by
  have hp' : ∀ c ∈ p, c.toNat < 256 := fun c hc => by
    have := hp c hc
    omega
  have hqtail : noPercent ('?' :: qs) = true := by
    simp only [noPercent, List.all_cons, Bool.and_eq_true]
    exact ⟨by decide, by simpa [noPercent] using hqs⟩
  have hdec : percentDecodeList (pre ++ oSep ++ percentEncode p ++ '?' :: qs)
      = some (pre ++ oSep ++ (p ++ '?' :: qs)) := by
    rw [List.append_assoc (pre ++ oSep), List.append_assoc pre oSep,
      percentDecodeList_noPercent_append pre _ hpre,
      percentDecodeList_noPercent_append oSep _ (by decide),
      percentDecodeList_encode_append p _ hp',
      percentDecodeList_noPercent_id _ hqtail]
    simp [List.append_assoc]
  rw [getStoragePathFromUrl_decode_eq _ (pre ++ oSep ++ (p ++ '?' :: qs))
      hdec,
    jsSplit_cut oSep pre _ (by decide) hopre,
    jsSplit_no_occur oSep _ (by decide) hob]
  show some (String.mk ((jsSplit qSep (p ++ '?' :: qs)).headD [])) =
    some (String.mk p)
  rw [show jsSplit qSep (p ++ '?' :: qs) = p :: jsSplit qSep qs from by
    rw [show p ++ '?' :: qs = p ++ qSep ++ qs from by
      rw [List.append_assoc, show (qSep : List Char) = ['?'] from rfl,
        List.singleton_append]]
    exact jsSplit_cut qSep p qs (by decide) hqp]
  rfl

/-- Witness for C9: a concrete Firebase-style download URL round-trips
back to the path "users/u1/documents/123.png". -/
theorem getStoragePathFromUrl_inverts_witness :
    getStoragePathFromUrl
        (String.mk ("https://firebasestorage.googleapis.com/v0/b/bkt".toList
          ++ oSep ++ percentEncode "users/u1/documents/123.png".toList
          ++ '?' :: "alt=media&token=abc".toList)) =
      some (String.mk "users/u1/documents/123.png".toList) :=
  getStoragePathFromUrl_inverts
    "https://firebasestorage.googleapis.com/v0/b/bkt".toList
    "users/u1/documents/123.png".toList
    "alt=media&token=abc".toList
    (by decide) (by decide) (by decide) (by decide) (by decide) (by decide)

/-- Counterexample for C9 as frozen: the storage path
"users/u1/documents/a?b.png" percent-encodes into the URL, but decoding
the whole URL and splitting at the first `'?'` truncates the recovered
path to "users/u1/documents/a" — not the original path. -/
theorem getStoragePathFromUrl_counterexample :
    percentEncode "users/u1/documents/a?b.png".toList =
      "users%2Fu1%2Fdocuments%2Fa%3Fb.png".toList ∧
    getStoragePathFromUrl
        "https://firebasestorage.googleapis.com/v0/b/bkt/o/users%2Fu1%2Fdocuments%2Fa%3Fb.png?alt=media" =
      some "users/u1/documents/a" ∧
    ("users/u1/documents/a" : String) ≠ "users/u1/documents/a?b.png" := by
  refine ⟨by decide, by decide, by decide⟩

/-- C10.  `getStoragePathFromUrl` is partial: on every input whose decoded
form does not contain `'/o/'`, index `[1]` of the split is `undefined`
and the subsequent split throws (modelled as `none`); `deleteDocument` on
such a URL catches the exception before any storage call and fails with
the generic `"Failed to delete document"`, leaving storage untouched. -/
theorem getStoragePath_throws_and_delete_fails (storage : List String)
    (url : String) (decoded : List Char)
    (hdec : percentDecodeList url.toList = some decoded)
    (hno : ∀ i < decoded.length,
      isPrefixL oSep (List.drop i decoded) = false) :
    getStoragePathFromUrl url = none ∧
    deleteDocument storage url = .error "Failed to delete document" := by
  have h1 : getStoragePathFromUrl url = none := by
    rw [getStoragePathFromUrl_decode_eq url decoded hdec,
      jsSplit_no_occur oSep decoded (by decide) hno]
  refine ⟨h1, ?_⟩
  unfold deleteDocument
  rw [h1]

/-- Witness for C10: deleting with a URL that has no `'/o/'` segment
fails generically, whatever is in storage. -/
theorem getStoragePath_throws_and_delete_fails_witness :
    getStoragePathFromUrl "https://example.com/images/pic.png" = none ∧
    deleteDocument ["users/u1/documents/1.png"]
        "https://example.com/images/pic.png" =
      .error "Failed to delete document" :=
  getStoragePath_throws_and_delete_fails ["users/u1/documents/1.png"]
    "https://example.com/images/pic.png"
    "https://example.com/images/pic.png".toList rfl (by decide)
